import Mathlib

/-!
# Verification of the aoc2022 repository against its specification

Shallow embedding of the relevant parts of the 25 puzzle programs
(`src/p01.rs` .. `src/p25.rs`) together with proofs settling the frozen
claims.  Machine integers (`u64`, `usize`, `i64`) are modelled as `Nat`/`Int`
with explicit reduction modulo `2 ^ 64` at the points where the Rust code can
wrap.  Fallible Rust code (`anyhow::Result`) is modelled with `Except String`;
Rust panics are modelled with an outer `Option` layer (`none` = panic);
potentially diverging loops are modelled with explicit fuel.
-/

set_option maxRecDepth 1000000
set_option synthInstance.maxSize 40000

/-- Word size of the machine integers used by the programs. -/
def U64MOD : Nat := 2 ^ 64

instance {ε α : Type} [DecidableEq ε] [DecidableEq α] : DecidableEq (Except ε α) :=
  fun x y =>
    match x, y with
    | Except.error a, Except.error b =>
      if h : a = b then isTrue (by rw [h]) else isFalse (by simp [h])
    | Except.ok a, Except.ok b =>
      if h : a = b then isTrue (by rw [h]) else isFalse (by simp [h])
    | Except.error _, Except.ok _ => isFalse (by simp)
    | Except.ok _, Except.error _ => isFalse (by simp)

/-- Modelled from the spec: the `problem!` harness macro (its definition lives
outside `src/`).  Per the spec, each program reads its input, aborts with the
loader's error on malformed input, and otherwise runs each wired solver and
writes each computed value to standard output.  The outer `Option` is the
panic layer: `none` means some solver panicked. -/
def runProblem {ι α β : Type} (load : ι → Except String α)
    (solvers : List (α → Option (Except String β))) (input : ι) :
    Option (Except String (List β)) :=
  match load input with
  | Except.error e => some (Except.error e)
  | Except.ok v =>
    match solvers.mapM (fun f => f v) with
    | none => none
    | some rs => some (rs.mapM (fun r => r))

/-- `char::is_ascii_digit`. -/
def isAsciiDigit (c : Char) : Bool := '0' ≤ c ∧ c ≤ '9'

/-- `str::trim` on the character list (ASCII whitespace). -/
def trimChars (cs : List Char) : List Char :=
  ((cs.dropWhile Char.isWhitespace).reverse.dropWhile Char.isWhitespace).reverse

/-- `str::trim`. -/
def rustTrim (s : String) : String := String.mk (trimChars s.toList)

/-- Numeric value of the digit characters. -/
def digitVal (c : Char) : Nat := c.toNat - '0'.toNat

/-- `u64::from_str`: an optional leading `+`, then one or more ASCII digits,
with the value required to fit in 64 bits. -/
def parseU64 (s : String) : Except String Nat :=
  let cs := s.toList
  let cs := match cs with
    | '+' :: rest => rest
    | l => l
  if cs = [] then Except.error "cannot parse integer from empty string"
  else if cs.all isAsciiDigit then
    let n := cs.foldl (fun acc c => acc * 10 + digitVal c) 0
    if n < U64MOD then Except.ok n
    else Except.error "number too large to fit in target type"
  else Except.error "invalid digit found in string"

/-- Insertion into a sorted list, used to model `slice::sort_unstable` (on
`Nat` keys every correct sort produces the same list: the sorted
rearrangement). -/
def insertSorted (x : Nat) : List Nat → List Nat
  | [] => [x]
  | y :: ys => if x ≤ y then x :: y :: ys else y :: insertSorted x ys

/-- `slice::sort_unstable` for `Nat` keys. -/
def sortNat (xs : List Nat) : List Nat := xs.foldr insertSorted []

namespace P01

/-- `p01::load_input`: lines are grouped into paragraphs at blank lines, each
non-blank line parses as a `u64`. -/
def load (lines : List String) : Except String (List (List Nat)) :=
  let step : List (List Nat) × List Nat → String → Except String (List (List Nat) × List Nat) :=
    fun (out, current) line =>
      if (trimChars line.toList).isEmpty then Except.ok (out ++ [current], [])
      else (parseU64 (rustTrim line)).map (fun n => (out, current ++ [n]))
  (lines.foldlM step ([], [])).map (fun (out, current) =>
    if current.isEmpty then out else out ++ [current])

/-- Wrapping `u64` sum, as computed by `iter().sum::<u64>()`. -/
def sumU64 (xs : List Nat) : Nat :=
  xs.foldl (fun a b => (a + b) % U64MOD) 0

/-- `p01::solve1`: maximum paragraph sum, error on empty input. -/
def solve1 (elves : List (List Nat)) : Except String Nat :=
  match (elves.map sumU64).max? with
  | none => Except.error "No elf data"
  | some m => Except.ok m

/-- `p01::solve2`: sort the paragraph sums and add the last three.  The Rust
code slices `data[data.len()-3..]`, which panics (`none` here) when fewer
than three paragraphs exist. -/
def solve2 (elves : List (List Nat)) : Option Nat :=
  let data := sortNat (elves.map sumU64)
  if 3 ≤ data.length then some (sumU64 (data.drop (data.length - 3)))
  else none

/-- The full p01 program as wired by its `problem!` invocation. -/
def run (lines : List String) : Option (Except String (List Nat)) :=
  runProblem load
    [fun i => some (solve1 i), fun i => (solve2 i).map Except.ok] lines

end P01

namespace P25

/-- `p25::Digit` values are in `{-2, -1, 0, 1, 2}`; we use `Int`. -/
def Digit := Int

/-- `p25::Number`: digits in order of increasing significance. -/
structure Number where
  digits : List Int
deriving DecidableEq

/-- `p25::Number::from_str`. -/
def numberFromStr (s : String) : Except String Number :=
  (s.toList.mapM (fun c =>
    if c = '2' then Except.ok (2 : Int)
    else if c = '1' then Except.ok 1
    else if c = '0' then Except.ok 0
    else if c = '-' then Except.ok (-1)
    else if c = '=' then Except.ok (-2)
    else Except.error "Invalid digit")).map
  (fun ds => { digits := ds.reverse })

/-- `p25::Number::to_normal`: value of the digit string in base 5. -/
def toNormal (n : Number) : Int :=
  (n.digits.enum.map (fun (i, d) => d * 5 ^ i)).sum

/-- The base-5 digit loop in `p25::Number::from_number`:
`while n > 4 { digits.push(n % 5); n /= 5 } digits.push(n)`.
Rust `i64` `%` and `/` truncate toward zero; for `n > 4` they agree with
Euclidean division. -/
def toBase5Fuel : Nat → Int → List Int
  | 0, n => [n]
  | fuel + 1, n => if 4 < n then n % 5 :: toBase5Fuel fuel (n / 5) else [n]

/-- The loop above with enough fuel to reach its exit condition: for `4 < n`
the quotient `n / 5` strictly decreases, so `n.toNat` steps always suffice. -/
def toBase5 (n : Int) : List Int := toBase5Fuel n.toNat n

/-- The carry walk in `p25::Number::from_number`, replacing digit values
3 and 4 (and 5, from an incoming carry) by negative-digit forms. -/
def carryFix : List Int → Int → List Int
  | [], accum => if accum ≠ 0 then [accum] else []
  | x :: rest, accum =>
    if x + accum = 5 then 0 :: carryFix rest 1
    else if x + accum = 4 then -1 :: carryFix rest 1
    else if x + accum = 3 then -2 :: carryFix rest 1
    else (x + accum) :: carryFix rest 0

/-- `p25::Number::from_number`. -/
def fromNumber (n : Int) : Number :=
  { digits := carryFix (toBase5 n) 0 }

/-- `p25::Number`'s `Display` implementation; digits outside `{-2..2}`
panic (modelled as `none`). -/
def numberToString (n : Number) : Option String :=
  (n.digits.reverse.mapM (fun d =>
    if d = 2 then some '2'
    else if d = 1 then some '1'
    else if d = 0 then some '0'
    else if d = -1 then some '-'
    else if d = -2 then some '='
    else none)).map (fun cs => String.mk cs)

/-- `p25::solve1`: sum the values and render the total in SNAFU digits. -/
def solve1 (input : List Number) : Option (Except String String) :=
  (numberToString (fromNumber ((input.map toNormal).sum))).map Except.ok

/-- Modelled from the spec: `crate::util::load_lines` (outside `src/`) is the
shared line-based input reader, parsing every line with the given parser. -/
def loadLines (lines : List String) : Except String (List Number) :=
  lines.mapM numberFromStr

/-- The full p25 program as wired by its `problem!` invocation: note the
invocation `problem!(crate::util::load_lines => Vec<Number> => (solve1))`
wires a single solver. -/
def run (lines : List String) : Option (Except String (List String)) :=
  runProblem loadLines [fun i => solve1 i] lines

end P25

namespace P17

/-- Split a character list at newline characters (`str::split` semantics:
`n` separators produce `n + 1` pieces). -/
def splitOnNl : List Char → List (List Char)
  | [] => [[]]
  | c :: rest =>
    if c = '\n' then [] :: splitOnNl rest
    else
      match splitOnNl rest with
      | [] => [[c]]
      | l :: ls => (c :: l) :: ls

/-- `str::lines`: split on newline, dropping a final empty piece produced by a
trailing newline and stripping a trailing carriage return from each line. -/
def rustLines (s : String) : List String :=
  match h : s.toList with
  | [] => []
  | cs =>
    let parts := splitOnNl cs
    let parts := if cs.getLast? = some '\n' then parts.dropLast else parts
    parts.map (fun l => String.mk (if l.getLast? = some '\r' then l.dropLast else l))

/-- `p17::Dir`. -/
inductive Dir where
  | Left
  | Right
deriving DecidableEq

/-- The per-character match inside `p17::load_input`. -/
def parseDir (c : Char) : Except String Dir :=
  if c = '>' then Except.ok Dir.Right
  else if c = '<' then Except.ok Dir.Left
  else Except.error ("Invalid char '" ++ c.toString ++ "' in input")

/-- `p17::load_input`: a single line of `<`/`>` characters. -/
def load (s : String) : Except String (List Dir) :=
  match rustLines s with
  | [] => Except.error "Input is empty"
  | line :: rest =>
    if rest.isEmpty then line.toList.mapM parseDir
    else Except.error "Input has extra newlines"

/-- `p17::Shape`: four row bitmasks (top to bottom, `u8`), plus extent. -/
structure Shape where
  lines : List Nat
  width : Nat
  height : Nat

/-- `p17::ROCKS`. -/
def ROCKS : List Shape :=
  [ { lines := [0x00, 0x00, 0x00, 0x0f], width := 4, height := 1 },
    { lines := [0x00, 0x02, 0x07, 0x02], width := 3, height := 3 },
    { lines := [0x00, 0x01, 0x01, 0x07], width := 3, height := 3 },
    { lines := [0x01, 0x01, 0x01, 0x01], width := 1, height := 4 },
    { lines := [0x00, 0x00, 0x03, 0x03], width := 2, height := 2 } ]

/-- `p17::Board`: row bitmasks bottom-to-top, each a `u8` value. -/
structure Board where
  rows : List Nat
deriving DecidableEq

/-- `p17::Board::drop_pos`. -/
def dropPos (b : Board) (width : Nat) : Nat × Nat :=
  (7 - (width + 2), b.rows.length + 3)

/-- `p17::Board::collides`: positions are `(x, y)` with `x` measured from the
right edge; `u8` shifts drop bits above bit 7. -/
def collides (b : Board) (rock : Shape) (pos : Nat × Nat) : Bool :=
  let rowMin := min pos.2 b.rows.length
  let rowMax := min (pos.2 + rock.height) b.rows.length
  if b.rows.length ≤ rowMin then false
  else
    let collideRows := (b.rows.drop rowMin).take (rowMax - rowMin)
    let shapeRows := rock.lines.drop (4 - collideRows.length)
    (collideRows.zip shapeRows.reverse).any
      (fun p => ((p.1 &&& ((p.2 <<< pos.1) % 256)) != 0))

/-- `p17::Board::place`. -/
def place (b : Board) (rock : Shape) (pos : Nat × Nat) : Board :=
  let maxY := pos.2 + rock.height
  let rows :=
    if b.rows.length < maxY then b.rows ++ List.replicate (maxY - b.rows.length) 0
    else b.rows
  { rows := (List.range rock.height).foldl (fun rs j =>
      rs.set (pos.2 + j)
        ((rs.getD (pos.2 + j) 0) ||| ((rock.lines.reverse.getD j 0 <<< pos.1) % 256))) rows }

/-- The local `State` of `p17::simulate_floyd`. -/
structure FState where
  board : Board
  t : Nat
  rockIdx : Nat
deriving DecidableEq

/-- The push-then-fall loop inside `p17::simulate_floyd::step`; terminates
because the rock's `y` coordinate strictly decreases.  (For an empty jet list
the Rust code panics on `input[s.t]`; callers only use non-empty inputs.) -/
def fallLoop (input : List Dir) (board : Board) (rock : Shape) :
    Nat × Nat → Nat → (Nat × Nat) × Nat
  | (x, y), t =>
    let cand := match input.getD t Dir.Left with
      | Dir.Left => (min (x + 1) (7 - rock.width), y)
      | Dir.Right => (x - 1, y)
    let x1 := if collides board rock cand then x else cand.1
    let t1 := (t + 1) % input.length
    if h : y = 0 then ((x1, y), t1)
    else if collides board rock (x1, y - 1) then ((x1, y), t1)
    else fallLoop input board rock (x1, y - 1) t1
termination_by pos _ => pos.2

/-- `p17::simulate_floyd::step`: drop one rock. -/
def step (input : List Dir) (s : FState) : FState :=
  let rock := ROCKS.getD s.rockIdx { lines := [0, 0, 0, 0], width := 0, height := 0 }
  let rockIdx := (s.rockIdx + 1) % ROCKS.length
  let r := fallLoop input s.board rock (dropPos s.board rock.width) s.t
  { board := place s.board rock r.1, t := r.2, rockIdx := rockIdx }

/-- `p17::simulate_floyd::board_compare`: compare `t`, `rock_idx` and the top
256 board rows. -/
def boardCompare (a b : FState) : Bool :=
  let aCtx := a.board.rows.length - 256
  let bCtx := b.board.rows.length - 256
  a.t == b.t && a.rockIdx == b.rockIdx &&
    (a.board.rows.drop aCtx) == (b.board.rows.drop bCtx)

/-- Iterated `step`. -/
def stepIter (input : List Dir) : Nat → FState → FState
  | 0, s => s
  | n + 1, s => stepIter input n (step input s)

/-- The initial state `x0` of `p17::simulate_floyd`. -/
def x0 : FState := { board := { rows := [] }, t := 0, rockIdx := 0 }

/-- First Floyd loop (tortoise and hare), with fuel for the unbounded
`while`. -/
def phase1 (input : List Dir) : Nat → FState → FState → Option (FState × FState)
  | 0, _, _ => none
  | fuel + 1, tortoise, hare =>
    if boardCompare tortoise hare then some (tortoise, hare)
    else phase1 input fuel (step input tortoise) (step input (step input hare))

/-- Second Floyd loop: find the offset of the cycle start. -/
def phase2 (input : List Dir) : Nat → FState → FState → Nat → Option (Nat × FState)
  | 0, _, _, _ => none
  | fuel + 1, tortoise, hare, offset =>
    if boardCompare tortoise hare then some (offset, tortoise)
    else phase2 input fuel (step input tortoise) (step input hare) (offset + 1)

/-- Third Floyd loop: find the period. -/
def phase3 (input : List Dir) (tortoise : FState) : Nat → FState → Nat → Option Nat
  | 0, _, _ => none
  | fuel + 1, hare, period =>
    if boardCompare tortoise hare then some period
    else phase3 input tortoise fuel (step input hare) (period + 1)

/-- `p17::simulate_floyd`: cycle detection plus the decomposition of the rock
count into initial segment, whole periods and remainder.  `fuel` bounds the
three unbounded `while` loops; `none` models divergence. -/
def simulateFloyd (input : List Dir) (rocks : Nat) (fuel : Nat) : Option Nat := do
  let (_, hare) ← phase1 input fuel (step input x0) (step input (step input x0))
  let (offset, periodStart) ← phase2 input fuel x0 hare 0
  let period ← phase3 input periodStart fuel (step input periodStart) 1
  let x := stepIter input (min rocks offset) x0
  if rocks ≤ offset then
    return x.board.rows.length
  let reps := (rocks - offset) / period
  let repOffset := (rocks - offset) % period
  let repHeight :=
    if 0 < reps then
      let startH := x.board.rows.length
      let temp := stepIter input period periodStart
      (temp.board.rows.length - startH) * reps
    else 0
  let x := stepIter input repOffset x
  return x.board.rows.length + repHeight

/-- The reference simulation: the board height after applying `step` exactly
`n` times from the empty board with `t = 0`, `rock_idx = 0`. -/
def naiveHeight (input : List Dir) (n : Nat) : Nat :=
  (stepIter input n x0).board.rows.length

/-- `p17::solve1`. -/
def solve1 (fuel : Nat) (input : List Dir) : Option (Except String Nat) :=
  (simulateFloyd input 2022 fuel).map Except.ok

/-- `p17::solve2`. -/
def solve2 (fuel : Nat) (input : List Dir) : Option (Except String Nat) :=
  (simulateFloyd input 1000000000000 fuel).map Except.ok

/-- The full p17 program as wired by its `problem!` invocation. -/
def run (fuel : Nat) (s : String) : Option (Except String (List Nat)) :=
  runProblem load [fun i => solve1 fuel i, fun i => solve2 fuel i] s

end P17

namespace P22

/-- `p22::Cell`. -/
inductive Cell where
  | Unset
  | Space
  | Wall
deriving DecidableEq

/-- `impl TryFrom<char> for p22::Cell`. -/
def cellTryFrom (c : Char) : Except String Cell :=
  if c = '_' then Except.ok Cell.Unset
  else if c = '.' then Except.ok Cell.Space
  else if c = '#' then Except.ok Cell.Wall
  else Except.error "Invalid cell value"

end P22

/-- Wrapping `u64`/`usize` addition. -/
def addW (a b : Nat) : Nat := (a + b) % U64MOD

/-- Wrapping `u64`/`usize` subtraction (for `b < 2^64`). -/
def subW (a b : Nat) : Nat := (a + U64MOD - b % U64MOD) % U64MOD

/-- Wrapping `u64`/`usize` multiplication. -/
def mulW (a b : Nat) : Nat := (a * b) % U64MOD

namespace P02

/-- `p02::Play`. -/
inductive Play where
  | Rock
  | Paper
  | Scissors
deriving DecidableEq

/-- `p02::Play::score_for`. -/
def Play.scoreFor : Play → Nat
  | Play.Rock => 1
  | Play.Paper => 2
  | Play.Scissors => 3

/-- `p02::Play::match_score`. -/
def Play.matchScore (me opponent : Play) : Nat :=
  if me = opponent then 3
  else
    match me, opponent with
    | Play.Rock, Play.Scissors => 6
    | Play.Paper, Play.Rock => 6
    | Play.Scissors, Play.Paper => 6
    | _, _ => 0

/-- `p02::MOVES`. -/
def MOVES : List Play := [Play.Rock, Play.Paper, Play.Scissors]

/-- The per-line closure in `p02::load_input`: only the presence of the
first and third characters is checked (with the same message for both,
as in the source); the characters are converted with `as u8` truncation
and wrapping (release-mode) `u8` subtraction of `b'A'` / `b'X'`, with no
range validation. -/
def parseLine (line : String) : Except String (Nat × Nat) :=
  match line.toList[0]? with
  | none => Except.error "No first value on line"
  | some a =>
    match line.toList[2]? with
    | none => Except.error "No first value on line"
    | some b =>
      Except.ok ((a.toNat % 256 + 256 - 65) % 256,
                 (b.toNat % 256 + 256 - 88) % 256)

/-- `p02::load_input`; `crate::util::read_lines` (outside `src/`) is
modelled from the spec: the closure is applied to each input line and the
results are collected, short-circuiting on the first error. -/
def load (lines : List String) : Except String (List (Nat × Nat)) :=
  lines.mapM parseLine

/-- `p02::solve1`; the `MOVES[..]` index panics are modelled as `none`. -/
def solve1 (input : List (Nat × Nat)) : Option Nat :=
  (input.mapM (fun p : Nat × Nat =>
    match MOVES[p.2]?, MOVES[p.1]? with
    | some me, some them => some (Play.matchScore me them + Play.scoreFor me)
    | _, _ => (none : Option Nat)) : Option (List Nat)).map
      (fun xs : List Nat => xs.foldl addW 0)

end P02

namespace P19

/-- `p19::Blueprint`; the costs are `u8` values. -/
structure Blueprint where
  index : Nat
  bCost : Nat
  cCost : Nat
  oCost : Nat × Nat
  gCost : Nat × Nat
deriving DecidableEq

/-- Bit layout constants of `p19::max_geodes::State`. -/
def BOTS_MASK : Nat := 0x00ffffff000000
def TIME_MASK : Nat := 0xff000000000000
def TIMESTEP : Nat := 0x01000000000000
def ORE_MASK : Nat := 0x00000000ff0000
def CLAY_MASK : Nat := 0x0000000000ff00
def OBS_MASK : Nat := 0x000000000000ff
def ORE_BOT_MASK : Nat := 0x00ff0000000000
def CLAY_BOT_MASK : Nat := 0x0000ff00000000
def OBS_BOT_MASK : Nat := 0x000000ff000000
def ORE_BOT : Nat := 0x00010000000000
def CLAY_BOT : Nat := 0x00000100000000
def OBS_BOT : Nat := 0x00000001000000

/-- `State::step`: accumulate resources from robots and tick the clock. -/
def stepKey (k0 : Nat) : Nat :=
  let k1 := addW k0 ((k0 &&& BOTS_MASK) >>> 24)
  subW k1 TIMESTEP

/-- `State::has_time`. -/
def hasTime (k : Nat) : Bool := TIMESTEP < (k &&& TIME_MASK)

/-- `State::remaining`. -/
def remaining (k : Nat) : Nat := (k >>> 48) &&& 0xff

/-- `p19::max_geodes::Costs`. -/
structure Costs where
  bOre : Nat
  cOre : Nat
  oOre : Nat
  oClay : Nat
  gOre : Nat
  gObs : Nat
  maxOre : Nat
  maxClay : Nat
  maxObs : Nat

/-- `Costs::new`. -/
def Costs.new (bp : Blueprint) : Costs :=
  { bOre := bp.bCost <<< 16
    cOre := bp.cCost <<< 16
    oOre := bp.oCost.1 <<< 16
    gOre := bp.gCost.1 <<< 16
    oClay := bp.oCost.2 <<< 8
    gObs := bp.gCost.2 <<< 0
    maxOre := (max (max bp.bCost bp.cCost) (max bp.oCost.1 bp.gCost.1)) <<< 40
    maxClay := bp.oCost.2 <<< 32
    maxObs := bp.gCost.2 <<< 24 }

/-- `Costs::can_ore`. -/
def canOre (c : Costs) (k : Nat) : Bool :=
  c.bOre ≤ (k &&& ORE_MASK) ∧ (k &&& ORE_BOT_MASK) < c.maxOre

/-- `Costs::can_clay`. -/
def canClay (c : Costs) (k : Nat) : Bool :=
  c.cOre ≤ (k &&& ORE_MASK) ∧ (k &&& CLAY_BOT_MASK) < c.maxClay

/-- `Costs::can_obs`. -/
def canObs (c : Costs) (k : Nat) : Bool :=
  c.oOre ≤ (k &&& ORE_MASK) ∧ c.oClay ≤ (k &&& CLAY_MASK) ∧
    (k &&& OBS_BOT_MASK) < c.maxObs

/-- `Costs::can_geo`. -/
def canGeo (c : Costs) (k : Nat) : Bool :=
  c.gOre ≤ (k &&& ORE_MASK) ∧ c.gObs ≤ (k &&& OBS_MASK)

/-- `p19::max_geodes::f`, the branch-and-bound recursion.  The Rust function
memoizes values of the same pure recursion in a `FnvHashMap`; the cache never
changes a computed value, so the embedding is the plain recursion.  `fuel`
bounds the recursion depth: every recursive call is on a state whose time
lane has been decremented once, so `t_max + 1` fuel suffices. -/
def f (costs : Costs) : Nat → Nat → Nat
  | 0, _ => 0
  | fuel + 1, x =>
    if ¬ hasTime x then 0
    else
      let s := stepKey x
      let best := 0
      let best := if canOre costs x then
          max best (f costs fuel (subW (addW s ORE_BOT) costs.bOre)) else best
      let best := if canClay costs x then
          max best (f costs fuel (subW (addW s CLAY_BOT) costs.cOre)) else best
      let best := if canObs costs x then
          max best (f costs fuel (subW (subW (addW s OBS_BOT) costs.oOre) costs.oClay))
        else best
      let best := if canGeo costs x then
          max best (f costs fuel (subW (subW s costs.gOre) costs.gObs) + (remaining x - 1))
        else best
      max best (f costs fuel (stepKey x))

/-- `p19::max_geodes`. -/
def maxGeodes (bp : Blueprint) (tMax : Nat) : Nat :=
  f (Costs.new bp) (tMax + 1) (mulW tMax TIMESTEP ||| ORE_BOT)

/-- `p19::solve1`: quality-weighted sum over all blueprints, computed by a
rayon `par_iter().map(..).sum()`. -/
def solve1 (input : List Blueprint) : Nat :=
  (input.map (fun bp => mulW (maxGeodes bp 24) bp.index)).foldl addW 0

/-- `p19::solve2`: product over the first three blueprints, computed by a
rayon `par_iter().map(..).product()` over the slice `input[..3]`; the slice
expression panics (`none`) when fewer than three blueprints were parsed. -/
def solve2 (input : List Blueprint) : Option Nat :=
  if 3 ≤ input.length then
    some (((input.take 3).map (fun bp => maxGeodes bp 32)).foldl mulW 1)
  else none

end P19

namespace P16

/-- `p16::Valve` (names already resolved to indices by the loader). -/
structure Valve where
  flow : Nat
  neighbors : List Nat

/-- `usize::MAX`. -/
def USIZEMAX : Nat := U64MOD - 1

/-- `usize::saturating_add`. -/
def satAdd (a b : Nat) : Nat := min (a + b) USIZEMAX

/-- Read entry `(i, j)` of a matrix stored as nested vectors. -/
def get2 (m : List (List Nat)) (i j : Nat) : Nat := (m.getD i []).getD j 0

/-- Write entry `(i, j)` of a matrix stored as nested vectors. -/
def set2 (m : List (List Nat)) (i j v : Nat) : List (List Nat) :=
  m.set i ((m.getD i []).set j v)

/-- `p16::all_pairs`: Floyd-Warshall all-pairs shortest paths. -/
def allPairs (input : List Valve) : List (List Nat) :=
  let n := input.length
  let m := List.replicate n (List.replicate n USIZEMAX)
  let m := input.enum.foldl (fun m ki =>
    let m := set2 m ki.1 ki.1 0
    ki.2.neighbors.foldl (fun m nb => set2 m ki.1 nb 1) m) m
  (List.range n).foldl (fun m k =>
    (List.range n).foldl (fun m i =>
      (List.range n).foldl (fun m j =>
        set2 m i j (min (get2 m i j) (satAdd (get2 m i k) (get2 m k j)))) m) m) m

/-- `p16::max_for_subset::Partial`. -/
structure Partial where
  avail : Nat
  cumFlow : Nat
  score : Nat
  pos : Nat
  t : Nat

/-- `Partial::is_avail`. -/
def isAvail (p : Partial) (idx : Nat) : Bool :=
  p.avail &&& ((1 <<< idx) % U64MOD) ≠ 0

/-- `Partial::lower_bound`. -/
def lowerBound (p : Partial) : Nat := p.score

/-- `64 - leading_zeros()` of a `u64` value: the bit length (position of the
highest set bit, plus one). -/
def u64BitLen (n : Nat) : Nat :=
  (List.range 64).foldl (fun acc i => if (n >>> i) % 2 = 1 then i + 1 else acc) 0

/-- `Partial::upper_bound`: walk the significant bits of `avail`
(`64 - bits.leading_zeros()` is the bit length of the `u64`). -/
def upperBound (p : Partial) (paths : List (List Nat)) (valves : List Valve) : Nat :=
  let row := paths.getD p.pos []
  let r := (List.range (u64BitLen p.avail)).foldl (fun sb i =>
    let sb2 := if sb.2 &&& 1 ≠ 0 then
        (addW sb.1 (mulW (p.t - (row.getD i 0 + 1)) ((valves.getD i ⟨0, []⟩).flow)), sb.2)
      else sb
    (sb2.1, sb2.2 >>> 1)) (p.score, p.avail)
  r.1

/-- `Partial::branch`: all viable next valves. -/
def branch (p : Partial) (paths : List (List Nat)) (valves : List Valve) : List Partial :=
  ((List.range valves.length).filter (fun idx =>
      ((paths.getD p.pos []).getD idx 0) + 1 < p.t && isAvail p idx)).map
    (fun idx =>
      let startFlowT := p.t - (((paths.getD p.pos []).getD idx 0) + 1)
      let scoreBonus := mulW ((valves.getD idx ⟨0, []⟩).flow) startFlowT
      { avail := p.avail ^^^ ((1 <<< idx) % U64MOD)
        score := addW p.score scoreBonus
        cumFlow := subW p.cumFlow ((valves.getD idx ⟨0, []⟩).flow)
        t := startFlowT
        pos := idx })

/-- The branch-and-bound work loop of `p16::max_for_subset`; `fuel` bounds
the unbounded `while let` loop (`none` models divergence). -/
def bnbLoop (paths : List (List Nat)) (valves : List Valve) :
    Nat → List Partial → Nat → Nat → Option (Nat × Nat)
  | _, [], bestLower, considered => some (bestLower, considered)
  | 0, _ :: _, _, _ => none
  | fuel + 1, q₀ :: qs₀, bestLower, considered =>
    let pick : Partial × List Partial :=
      if (q₀ :: qs₀).length < 1000000000 then (q₀, qs₀)
      else ((q₀ :: qs₀).getLast (by simp), (q₀ :: qs₀).dropLast)
    let state := pick.1
    let queue := pick.2
    let found : Nat × List Partial :=
      if bestLower < lowerBound state then
        (lowerBound state, queue.filter (fun st => lowerBound state < upperBound st paths valves))
      else (bestLower, queue)
    let bestLower := found.1
    let queue := found.2
    let queue := queue ++ (branch state paths valves).filter
      (fun st => bestLower < upperBound st paths valves)
    bnbLoop paths valves fuel queue bestLower (considered + 1)

/-- `p16::max_for_subset`: best achievable score over a valve subset plus the
number of states considered. -/
def maxForSubset (input : Nat × List Valve) (apsp : List (List Nat))
    (subset : Nat) (tMax : Nat) (fuel : Nat) : Option (Nat × Nat) :=
  let valves := input.2
  let start : Partial :=
    { cumFlow := (valves.map (·.flow)).foldl addW 0
      avail := subset
      score := 0
      t := tMax
      pos := input.1 }
  bnbLoop apsp valves fuel [start] 0 0

/-- The per-mask closure of `p16::solve2`: split the relevant valves between
"us" and "them" by the mask bits, evaluate both halves, and record the two
diagnostic counter increments.  Returns `(score, counter delta)`. -/
def candidate (input : Nat × List Valve) (apsp : List (List Nat))
    (relevant : List Nat) (flowMask : Nat) (fuel : Nat) (mask : Nat) :
    Option (Nat × Nat) := do
  let us := (relevant.foldl (fun um v =>
    ((if um.2 &&& 1 = 1 then um.1 ||| ((1 <<< v) % U64MOD) else um.1), um.2 >>> 1))
    (0, mask)).1
  let them := flowMask ^^^ us
  let usr ← maxForSubset input apsp us 26 fuel
  let themr ← maxForSubset input apsp them 26 fuel
  return (addW usr.1 themr.1, addW usr.2 themr.2)

/-- The fixed candidate set of `p16::solve2`: the masks `0..n_max`. -/
def candidateMasks (relevant : List Nat) : List Nat :=
  List.range ((1 <<< relevant.length) - 1)

/-- The indices of valves with nonzero flow, as filtered in `p16::solve2`. -/
def relevantValves (valves : List Valve) : List Nat :=
  (valves.enum.filter (fun t => t.2.flow ≠ 0)).map (·.1)

/-- The flow-mask loop of `p16::solve2`. -/
def flowMaskOf (valves : List Valve) : Nat :=
  (valves.enum.filter (fun t => t.2.flow ≠ 0)).foldl
    (fun m t => m ||| ((1 <<< t.1) % U64MOD)) 0

/-- `p16::solve2`.  The rayon `into_par_iter().map(..).max()` pipeline maps
`candidate` over the fixed mask set and reduces with `max`; the relaxed
atomic counter only accumulates the per-candidate `(us_st + them_st)`
deltas.  `.max()` over an empty candidate set makes `.unwrap()` panic
(`none`). -/
def solve2 (fuel : Nat) (input : Nat × List Valve) : Option (Except String Nat) :=
  let valves := input.2
  let relevant := relevantValves valves
  if 16 ≤ relevant.length then
    some (Except.error "Too many relevant valves - you need a different algorithm")
  else
    let apsp := allPairs valves
    let flowMask := flowMaskOf valves
    match (candidateMasks relevant).mapM (candidate input apsp relevant flowMask fuel) with
    | none => none
    | some results =>
      match (results.map (·.1)).max? with
      | none => none
      | some m => some (Except.ok m)

/-- One concrete run of the `p16::solve2` pipeline: the rayon workers finish
the candidates in some schedule order `sched` (a permutation of the mask
list); the relaxed atomic counter starts at `c0` and receives each
candidate's delta in completion order; the `max` reduction combines results
in that same order.  Returns the answer together with the final counter. -/
def solve2Run (fuel : Nat) (input : Nat × List Valve) (sched : List Nat) (c0 : Nat) :
    (Option (Except String Nat)) × Nat :=
  let valves := input.2
  let relevant := relevantValves valves
  if 16 ≤ relevant.length then
    (some (Except.error "Too many relevant valves - you need a different algorithm"), c0)
  else
    let apsp := allPairs valves
    let flowMask := flowMaskOf valves
    match sched.mapM (candidate input apsp relevant flowMask fuel) with
    | none => (none, c0)
    | some results =>
      (match (results.map (·.1)).max? with
       | none => none
       | some m => some (Except.ok m),
       results.foldl (fun c r => addW c r.2) c0)

end P16

namespace P11

/-- `p11::Operand`. -/
inductive Operand where
  | Const (n : Nat)
  | Old
deriving DecidableEq

/-- `p11::Op`. -/
inductive Op where
  | Mul (a b : Operand)
  | Add (a b : Operand)
deriving DecidableEq

/-- `p11::Op::apply::evaluate`. -/
def evaluate (op : Operand) (worry : Nat) : Nat :=
  match op with
  | Operand.Old => worry
  | Operand.Const n => n

/-- `p11::Op::apply` on `u64` (wrapping) worry values. -/
def Op.applyW (op : Op) (worry : Nat) : Nat :=
  match op with
  | Op.Mul a b => mulW (evaluate a worry) (evaluate b worry)
  | Op.Add a b => addW (evaluate a worry) (evaluate b worry)

/-- The reference operation of claim C9: the same operation evaluated on
exact unbounded integers. -/
def Op.applyExact (op : Op) (worry : Nat) : Nat :=
  match op with
  | Op.Mul a b => evaluate a worry * evaluate b worry
  | Op.Add a b => evaluate a worry + evaluate b worry

/-- `p11::Monkey`. -/
structure Monkey where
  items : List Nat
  operation : Op
  divisor : Nat
  branches : Nat × Nat
deriving DecidableEq

/-- The inner `gcd` of `p11::lcm`, with explicit fuel (the second argument
strictly decreases, so `b + 1` steps suffice). -/
def gcdFuel : Nat → Nat → Nat → Nat
  | 0, a, _ => a
  | fuel + 1, a, b => if b = 0 then a else gcdFuel fuel b (a % b)

/-- `p11::lcm::gcd`. -/
def gcdR (a b : Nat) : Nat := gcdFuel (b + 1) a b

/-- `p11::lcm`: fold `elem * out / gcd(elem, out)` over the list, starting
from its first element (`u64` arithmetic; the Rust code panics on an empty
list or on a zero `gcd`). -/
def lcmR (xs : List Nat) : Nat :=
  xs.foldl (fun out elem => mulW elem out / gcdR elem out) (xs.getD 0 0)

/-- `p11::Simulation`: the solver state; `input` is the shared borrow of the
parsed input held by the `Simulation` struct. -/
structure Sim where
  input : List Monkey
  decay : Bool
  k : Nat
  items : List (List Nat)
  inspected : List Nat
deriving DecidableEq

/-- `p11::Simulation::new`. -/
def Sim.new (input : List Monkey) (decay : Bool) : Sim :=
  { input := input
    decay := decay
    k := lcmR (input.map (·.divisor))
    items := input.map (·.items)
    inspected := List.replicate input.length 0 }

/-- The `while` loop of `p11::Simulation::step_turn`, processing the items of
monkey `index` front to back; worry values are `u64` and are reduced modulo
`self.k` after each operation.  `fuel` bounds the loop (a monkey that throws
to itself can run forever in Rust).  A throw to an out-of-range monkey
panics in Rust; `List.set` makes it a no-op here (no claim depends on it). -/
def stepTurnLoop (sim : Sim) (index : Nat) : Nat → Sim
  | 0 => sim
  | fuel + 1 =>
    match sim.items.getD index [] with
    | [] => sim
    | item :: rest =>
      let monkey := sim.input.getD index ⟨[], Op.Add Operand.Old Operand.Old, 1, (0, 0)⟩
      let inspected := sim.inspected.set index (sim.inspected.getD index 0 + 1)
      let items := sim.items.set index rest
      let worry := monkey.operation.applyW item % sim.k
      let worry := if sim.decay then worry / 3 else worry
      let target := if worry % monkey.divisor = 0 then monkey.branches.2 else monkey.branches.1
      let items := items.set target (items.getD target [] ++ [worry])
      stepTurnLoop { sim with items := items, inspected := inspected } index fuel

/-- `p11::Simulation::step_round`. -/
def stepRound (fuel : Nat) (sim : Sim) : Sim :=
  (List.range sim.items.length).foldl (fun s m => stepTurnLoop s m fuel) sim

/-- `p11::Simulation::monkey_business` (panics with fewer than two
monkeys). -/
def monkeyBusiness (sim : Sim) : Option Nat :=
  let ins := sortNat sim.inspected
  if 2 ≤ ins.length then
    some (mulW (ins.getD (ins.length - 1) 0) (ins.getD (ins.length - 2) 0))
  else none

/-- `p11::solve1`. -/
def solve1 (fuel : Nat) (input : List Monkey) : Option (Except String Nat) :=
  let sim := (List.range 20).foldl (fun s _ => stepRound fuel s) (Sim.new input true)
  (monkeyBusiness sim).map Except.ok

/-- `p11::solve2`. -/
def solve2 (fuel : Nat) (input : List Monkey) : Option (Except String Nat) :=
  let sim := (List.range 10000).foldl (fun s _ => stepRound fuel s) (Sim.new input false)
  (monkeyBusiness sim).map Except.ok

/-- `p11::solve1` together with the parsed input as the solver leaves it:
the solver only holds the input through the `Simulation`'s shared borrow, so
the returned input is the final simulation state's `input` field. -/
def solve1Threaded (fuel : Nat) (input : List Monkey) :
    Option (Except String Nat) × List Monkey :=
  let sim := (List.range 20).foldl (fun s _ => stepRound fuel s) (Sim.new input true)
  ((monkeyBusiness sim).map Except.ok, sim.input)

/-- The reference simulation of claim C9: identical control flow with worry
decay disabled, but worry values are exact unbounded integers and are not
reduced. -/
def refStepTurnLoop (sim : Sim) (index : Nat) : Nat → Sim
  | 0 => sim
  | fuel + 1 =>
    match sim.items.getD index [] with
    | [] => sim
    | item :: rest =>
      let monkey := sim.input.getD index ⟨[], Op.Add Operand.Old Operand.Old, 1, (0, 0)⟩
      let inspected := sim.inspected.set index (sim.inspected.getD index 0 + 1)
      let items := sim.items.set index rest
      let worry := monkey.operation.applyExact item
      let target := if worry % monkey.divisor = 0 then monkey.branches.2 else monkey.branches.1
      let items := items.set target (items.getD target [] ++ [worry])
      refStepTurnLoop { sim with items := items, inspected := inspected } index fuel

/-- One round of the reference simulation. -/
def refStepRound (fuel : Nat) (sim : Sim) : Sim :=
  (List.range sim.items.length).foldl (fun s m => refStepTurnLoop s m fuel) sim

end P11

namespace P20

/-- Reduce an `Int` to the `i64` range (two's complement wrapping). -/
def wrapI64 (x : Int) : Int := (x + 2 ^ 63) % 2 ^ 64 - 2 ^ 63

/-- The cyclic doubly-linked `p20::ShiftList` is represented by the list of
node indices in cycle order (following `next` pointers); node `i` permanently
carries the value `seq[i]`.  `ShiftList::new` produces the identity order
(and panics for fewer than two nodes, which callers exclude). -/
def newOrder (n : Nat) : List Nat := List.range n

/-- `p20::ShiftList::shift_node`: unlink node `idx`, walk `delta` links
(forwards or backwards) through the remaining cycle, and relink.  Positions
are taken modulo the remaining cycle length, exactly as the pointer walk
does. -/
def shiftNode (ord : List Nat) (idx : Nat) (delta : Int) : List Nat :=
  if 0 < delta then
    let p := ord.indexOf idx
    let rest := ord.erase idx
    let m := rest.length
    let prevPos := (p + m - 1) % m
    rest.insertIdx ((prevPos + delta.toNat) % m + 1) idx
  else if delta < 0 then
    let p := ord.indexOf idx
    let rest := ord.erase idx
    let m := rest.length
    let nextPos := p % m
    rest.insertIdx ((nextPos + (m - (-delta).toNat % m)) % m) idx
  else ord

/-- `p20::ShiftList::into_vec`: walk the cycle once starting from `first`. -/
def intoVec (seq : List Int) (ord : List Nat) (first : Nat) : List Int :=
  (ord.rotate (ord.indexOf first)).map (fun i => seq.getD i 0)

/-- The per-node delta reduction in `p20::mix_sequence` (`i64 %` truncates
toward zero, matching `Int.emod` on the nonnegative operands used here). -/
def reduceDelta (n : Nat) (v : Int) : Int :=
  if 0 < v then v % ((n : Int) - 1)
  else if v < 0 then -((-v) % ((n : Int) - 1))
  else v

/-- `p20::mix_sequence`: `k` rounds of shifting every node by its (reduced)
value, then unravel starting from the node holding `0` (`unwrap` panics,
i.e. `none`, when no zero exists). -/
def mixSequence (seq : List Int) (k : Nat) : Option (List Int) :=
  match seq.findIdx? (fun x => x == 0) with
  | none => none
  | some zeroIdx =>
    let n := seq.length
    let ord := (List.range k).foldl (fun ord _ =>
      (List.range n).foldl (fun ord i =>
        shiftNode ord i (reduceDelta n (seq.getD i 0))) ord) (newOrder n)
    some (intoVec seq ord zeroIdx)

/-- The grove-coordinate sum shared by both solvers (`i64` addition). -/
def coords (res : List Int) : Int :=
  wrapI64 (wrapI64 (res.getD (1000 % res.length) 0 + res.getD (2000 % res.length) 0) +
    res.getD (3000 % res.length) 0)

/-- `p20::solve1`. -/
def solve1 (input : List Int) : Option (Except String Int) :=
  (mixSequence input 1).map (fun res => Except.ok (coords res))

/-- `p20::solve2`: scale a copy (`to_owned`) of the input by the decryption
key, mix ten times. -/
def solve2 (input : List Int) : Option (Except String Int) :=
  let data := input.map (fun x => wrapI64 (x * 811589153))
  (mixSequence data 10).map (fun res => Except.ok (coords res))

/-- `p20::solve2` together with the parsed input as the solver leaves it: the
solver multiplies only the owned copy `data`, never the shared input. -/
def solve2Threaded (input : List Int) : Option (Except String Int) × List Int :=
  (solve2 input, input)

end P20

section Helpers

/-- The `Option` `mapM` loop preserves length. -/
theorem optionMapM_loop_length {α β : Type} (g : α → Option β) :
    ∀ (l : List α) (acc rs : List β),
      List.mapM.loop g l acc = some rs → rs.length = l.length + acc.length := by
  intro l
  induction l with
  | nil =>
    intro acc rs h
    simp [List.mapM.loop, Pure.pure] at h
    simp [← h]
  | cons x xs ih =>
    intro acc rs h
    simp only [List.mapM.loop] at h
    cases hx : g x with
    | none => rw [hx] at h; simp [Bind.bind] at h
    | some v =>
      rw [hx] at h
      simp only [Option.bind_eq_bind, Option.some_bind] at h
      have := ih (v :: acc) rs h
      simp only [List.length_cons] at this ⊢
      omega

/-- `Option` `mapM` preserves length. -/
theorem optionMapM_length {α β : Type} (g : α → Option β) (l : List α)
    (rs : List β) (h : l.mapM g = some rs) : rs.length = l.length := by
  have := optionMapM_loop_length g l [] rs h
  simpa using this

/-- The `Except` `mapM` loop preserves length. -/
theorem exceptMapM_loop_length {ε β : Type} :
    ∀ (l : List (Except ε β)) (acc rs : List β),
      List.mapM.loop (fun r => r) l acc = Except.ok rs →
      rs.length = l.length + acc.length := by
  intro l
  induction l with
  | nil =>
    intro acc rs h
    simp [List.mapM.loop, Pure.pure, Except.pure] at h
    simp [← h]
  | cons x xs ih =>
    intro acc rs h
    simp only [List.mapM.loop] at h
    cases x with
    | error e => simp [Bind.bind, Except.bind] at h
    | ok v =>
      simp only [Bind.bind, Except.bind] at h
      have := ih (v :: acc) rs h
      simp only [List.length_cons] at this ⊢
      omega

/-- `Except` `mapM` preserves length. -/
theorem exceptMapM_length {ε β : Type} (l : List (Except ε β)) (rs : List β)
    (h : l.mapM (fun r => r) = Except.ok rs) : rs.length = l.length := by
  have := exceptMapM_loop_length l [] rs h
  simpa using this

/-- A successful harness run writes one value per wired solver. -/
theorem runProblem_length {ι α β : Type} (load : ι → Except String α)
    (solvers : List (α → Option (Except String β))) (input : ι) (outs : List β)
    (h : runProblem load solvers input = some (Except.ok outs)) :
    outs.length = solvers.length := by
  unfold runProblem at h
  split at h
  · simp at h
  · rename_i v hl
    split at h
    · simp at h
    · rename_i rs hm
      simp at h
      have h1 := exceptMapM_length rs outs h
      have h2 := optionMapM_length _ solvers rs hm
      omega

end Helpers

/-- C10: on some well-formed inputs the part-2 solvers panic instead of
returning an error value: `p01::solve2` slices `data[data.len()-3..]` and
panics with only two elf groups (an input the p01 loader accepts), and
`p19::solve2` slices `input[..3]` and panics with only two parsed
blueprints. -/
theorem claim_C10 :
    P01.load ["1", "", "2"] = Except.ok [[1], [2]] ∧
    P01.solve2 [[1], [2]] = none ∧
    P19.solve2
      [ { index := 1, bCost := 4, cCost := 2, oCost := (3, 14), gCost := (2, 7) },
        { index := 2, bCost := 2, cCost := 3, oCost := (3, 8), gCost := (3, 12) } ] = none := by
  refine ⟨by decide, by decide, ?_⟩
  unfold P19.solve2
  decide

/-- C2 counterexample: the p25 program wires a single solver
(`problem!(crate::util::load_lines => Vec<Number> => (solve1))`), so a
successful run writes one value, not two. -/
theorem claim_C2_counterexample :
    P25.run ["1"] = some (Except.ok ["1"]) ∧ (["1"] : List String).length ≠ 2 := by
  exact ⟨by decide, by decide⟩

/-- C2 (amended): a successful run writes one value per solver wired in the
program's `problem!` invocation: two for the two-solver programs (p01 shown),
one for p25. -/
theorem claim_C2 :
    (∀ (lines : List String) (outs : List Nat),
       P01.run lines = some (Except.ok outs) → outs.length = 2) ∧
    (∀ (lines : List String) (outs : List String),
       P25.run lines = some (Except.ok outs) → outs.length = 1) := by
  constructor
  · intro lines outs h
    exact runProblem_length _ _ _ _ h
  · intro lines outs h
    exact runProblem_length _ _ _ _ h

/-- Witness for C2 at concrete inputs. -/
theorem claim_C2_witness :
    ([3, 6] : List Nat).length = 2 ∧ (["1"] : List String).length = 1 :=
  ⟨claim_C2.1 ["1", "", "2", "", "3"] [3, 6] (by decide),
   claim_C2.2 ["1"] ["1"] (by decide)⟩

/-- Mapping `p17::parseDir` over a character list stops at the first invalid
character with that character's error message. -/
theorem mapM_parseDir_loop_error :
    ∀ (cs : List Char) (acc : List P17.Dir) (c : Char),
      cs.find? (fun ch => !(ch == '>') && !(ch == '<')) = some c →
      List.mapM.loop P17.parseDir cs acc =
        Except.error ("Invalid char '" ++ c.toString ++ "' in input") := by
  intro cs
  induction cs with
  | nil => intro acc c h; simp [List.find?] at h
  | cons x xs ih =>
    intro acc c h
    simp only [List.find?] at h
    by_cases hgt : x = '>'
    · have hgt2 : (x == '>') = true := by simp [hgt]
      simp only [hgt2, Bool.not_true, Bool.false_and] at h
      simpa [List.mapM.loop, P17.parseDir, hgt, Bind.bind, Except.bind] using ih _ c h
    · by_cases hlt : x = '<'
      · have hlt2 : (x == '<') = true := by simp [hlt]
        simp only [hlt2, Bool.not_true, Bool.and_false] at h
        simpa [List.mapM.loop, P17.parseDir, hgt, hlt, Bind.bind, Except.bind] using ih _ c h
      · have hgt2 : (x == '>') = false := by simp [hgt]
        have hlt2 : (x == '<') = false := by simp [hlt]
        simp only [hgt2, hlt2, Bool.not_false, Bool.and_self, if_true] at h
        have hxc : x = c := by simpa using h
        subst hxc
        simp [List.mapM.loop, P17.parseDir, hgt, hlt, Bind.bind, Except.bind]

/-- C1 counterexample: not every puzzle loader rejects malformed input with
a descriptive error.  `p02::load_input` validates only that each line has a
first and a third character: on the invalid line `"D Y"` (no `A`/`B`/`C`
move in the first column) it returns the parsed value `(3, 1)` instead of
an error, and the malformed value is only detected later as an index panic
(`MOVES[3]`, modelled as `none`) inside `solve1`. -/
theorem claim_C1_counterexample :
    P02.load ["D Y"] = Except.ok [(3, 1)] ∧ P02.solve1 [(3, 1)] = none := by
  exact ⟨by decide, by decide⟩

/-- C1 (amended): loaders that validate their input make loading fail with
a descriptive error and the program run terminate with that error,
producing no value: shown for the cited loaders, `p17::load_input` (any
single-line input containing a character other than `<`/`>`, reported with
the first offending character's message) and `p22`'s `TryFrom<char> for
Cell` (any character other than `_`, `.`, `#`).  The harness propagation is
the spec-modelled `runProblem`.  This does not extend to every loader:
`p02::load_input` accepts invalid characters (see the counterexample). -/
theorem claim_C1 :
    (∀ (s line : String) (c : Char) (fuel : Nat),
        P17.rustLines s = [line] →
        line.toList.find? (fun ch => !(ch == '>') && !(ch == '<')) = some c →
        P17.run fuel s =
          some (Except.error ("Invalid char '" ++ c.toString ++ "' in input"))) ∧
    (∀ c : Char, c ≠ '_' → c ≠ '.' → c ≠ '#' →
        P22.cellTryFrom c = Except.error "Invalid cell value") := by
  constructor
  · intro s line c fuel hlines hfind
    have hload : P17.load s =
        Except.error ("Invalid char '" ++ c.toString ++ "' in input") := by
      unfold P17.load
      rw [hlines]
      simpa using mapM_parseDir_loop_error line.toList [] c hfind
    unfold P17.run runProblem
    rw [hload]
  · intro c h1 h2 h3
    unfold P22.cellTryFrom
    rw [if_neg h1, if_neg h2, if_neg h3]

/-- Witness for C1 at concrete inputs. -/
theorem claim_C1_witness :
    P17.run 0 "<<a" = some (Except.error "Invalid char 'a' in input") ∧
    P22.cellTryFrom 'q' = Except.error "Invalid cell value" :=
  ⟨claim_C1.1 "<<a" "<<a" 'a' 0 (by decide) (by decide),
   claim_C1.2 'q' (by decide) (by decide) (by decide)⟩

section PermHelpers

/-- Folding wrapping addition is invariant under permutation: any completion
order of a parallel sum produces the same value. -/
theorem foldl_addW_perm {l₁ l₂ : List Nat} (p : l₁.Perm l₂) (b : Nat) :
    l₁.foldl addW b = l₂.foldl addW b := by
  refine p.foldl_eq' ?_ b
  intro x _ y _ z
  simp only [addW, Nat.mod_add_mod]
  congr 1
  omega

/-- Folding wrapping multiplication is invariant under permutation. -/
theorem foldl_mulW_perm {l₁ l₂ : List Nat} (p : l₁.Perm l₂) (b : Nat) :
    l₁.foldl mulW b = l₂.foldl mulW b := by
  refine p.foldl_eq' ?_ b
  intro x _ y _ z
  simp only [mulW, Nat.mod_mul_mod]
  congr 1
  ring

/-- `List.max?` is invariant under permutation. -/
theorem max?_perm {l₁ l₂ : List Nat} (p : l₁.Perm l₂) : l₁.max? = l₂.max? := by
  cases l₁ with
  | nil => rw [p.symm.eq_nil]
  | cons x xs =>
    cases l₂ with
    | nil => exact absurd p.eq_nil (by simp)
    | cons y ys =>
      show some (xs.foldl max x) = some (ys.foldl max y)
      have hx : xs.foldl max x = (x :: xs).foldl max 0 := by
        simp [List.foldl_cons, Nat.zero_max]
      have hy : ys.foldl max y = (y :: ys).foldl max 0 := by
        simp [List.foldl_cons, Nat.zero_max]
      rw [hx, hy]
      congr 1
      refine p.foldl_eq' ?_ 0
      intro a _ b _ z
      rw [max_assoc, max_comm a b, ← max_assoc]

/-- The `Option` `mapM` loop when every element maps to `some`. -/
theorem optionMapM_loop_of_all {α β : Type} (g : α → Option β) (hf : α → β) :
    ∀ (l : List α) (acc : List β), (∀ x ∈ l, g x = some (hf x)) →
      List.mapM.loop g l acc = some (acc.reverse ++ l.map hf) := by
  intro l
  induction l with
  | nil => intro acc _; simp [List.mapM.loop, Pure.pure]
  | cons x xs ih =>
    intro acc hall
    simp only [List.mapM.loop]
    rw [hall x (by simp)]
    simp only [Option.bind_eq_bind, Option.some_bind]
    rw [ih (hf x :: acc) (fun z hz => hall z (by simp [hz]))]
    simp

/-- `Option` `mapM` when every element maps to `some`. -/
theorem optionMapM_of_all {α β : Type} (g : α → Option β) (hf : α → β)
    (l : List α) (h : ∀ x ∈ l, g x = some (hf x)) : l.mapM g = some (l.map hf) := by
  simpa using optionMapM_loop_of_all g hf l [] h

/-- A successful `Option` `mapM` means every element mapped to `some`. -/
theorem optionMapM_loop_all_some {α β : Type} (g : α → Option β) :
    ∀ (l : List α) (acc rs : List β), List.mapM.loop g l acc = some rs →
      ∀ x ∈ l, g x ≠ none := by
  intro l
  induction l with
  | nil => intro acc rs _ x hx; simp at hx
  | cons y ys ih =>
    intro acc rs h x hx
    simp only [List.mapM.loop] at h
    cases hy : g y with
    | none => rw [hy] at h; simp [Bind.bind] at h
    | some b =>
      rw [hy] at h
      simp only [Option.bind_eq_bind, Option.some_bind] at h
      rcases List.mem_cons.mp hx with rfl | hx2
      · simp [hy]
      · exact ih (b :: acc) rs h x hx2

/-- A member mapping to `none` makes the whole `Option` `mapM` loop `none`. -/
theorem optionMapM_loop_none_of_mem {α β : Type} (g : α → Option β) :
    ∀ (l : List α) (acc : List β) (x : α), x ∈ l → g x = none →
      List.mapM.loop g l acc = none := by
  intro l
  induction l with
  | nil => intro acc x hx; simp at hx
  | cons y ys ih =>
    intro acc x hx hgx
    simp only [List.mapM.loop]
    rcases List.mem_cons.mp hx with rfl | hx2
    · rw [hgx]; simp [Bind.bind]
    · cases hy : g y with
      | none => simp [Bind.bind]
      | some b =>
        simp only [Option.bind_eq_bind, Option.some_bind]
        exact ih (b :: acc) x hx2 hgx

/-- `mapM`-level wrapper of `optionMapM_loop_all_some`. -/
theorem optionMapM_all_some {α β : Type} (g : α → Option β) (l : List α)
    (rs : List β) (h : l.mapM g = some rs) : ∀ x ∈ l, g x ≠ none :=
  optionMapM_loop_all_some g l [] rs h

/-- `mapM`-level wrapper of `optionMapM_loop_none_of_mem`. -/
theorem optionMapM_none_of_mem {α β : Type} (g : α → Option β) (l : List α)
    (x : α) (hx : x ∈ l) (hgx : g x = none) : l.mapM g = none :=
  optionMapM_loop_none_of_mem g l [] x hx hgx

end PermHelpers

/-- A blueprint whose costs are all unaffordable within the time limit; its
search value is 0. -/
def bpAllMax : P19.Blueprint :=
  { index := 1, bCost := 255, cCost := 255, oCost := (255, 255), gCost := (255, 255) }

/-- A blueprint that can afford exactly geode robots late in the run; its
32-minute search value is 2. -/
def bpGeode : P19.Blueprint :=
  { index := 2, bCost := 255, cCost := 255, oCost := (255, 255), gCost := (29, 0) }

/-- C4: the parallel pipelines are deterministic and their diagnostic counter
does not interfere: any two completion schedules (permutations of the
candidate set) yield equal values, equal to the sequential evaluation, and
in p16's case the counter's initial value is irrelevant to the answer. -/
theorem claim_C4 :
    (∀ (bps s₁ s₂ : List P19.Blueprint), s₁.Perm bps → s₂.Perm bps →
        (s₁.map (fun bp => mulW (P19.maxGeodes bp 24) bp.index)).foldl addW 0 =
          (s₂.map (fun bp => mulW (P19.maxGeodes bp 24) bp.index)).foldl addW 0 ∧
        (s₁.map (fun bp => mulW (P19.maxGeodes bp 24) bp.index)).foldl addW 0 =
          P19.solve1 bps) ∧
    (∀ (bps s₁ s₂ : List P19.Blueprint), 3 ≤ bps.length →
        s₁.Perm (bps.take 3) → s₂.Perm (bps.take 3) →
        (s₁.map (fun bp => P19.maxGeodes bp 32)).foldl mulW 1 =
          (s₂.map (fun bp => P19.maxGeodes bp 32)).foldl mulW 1 ∧
        P19.solve2 bps = some ((s₁.map (fun bp => P19.maxGeodes bp 32)).foldl mulW 1)) ∧
    (∀ (fuel : Nat) (input : Nat × List P16.Valve) (s₁ s₂ : List Nat) (c₀ c₀' : Nat),
        s₁.Perm (P16.candidateMasks (P16.relevantValves input.2)) →
        s₂.Perm (P16.candidateMasks (P16.relevantValves input.2)) →
        (P16.solve2Run fuel input s₁ c₀).1 = (P16.solve2Run fuel input s₂ c₀').1 ∧
        (P16.solve2Run fuel input s₁ c₀).1 = P16.solve2 fuel input) := by
  have p16run : ∀ (fuel : Nat) (input : Nat × List P16.Valve) (s : List Nat) (c : Nat),
      s.Perm (P16.candidateMasks (P16.relevantValves input.2)) →
      (P16.solve2Run fuel input s c).1 = P16.solve2 fuel input := by
    intro fuel input s c hp
    unfold P16.solve2Run P16.solve2
    by_cases h16 : 16 ≤ (P16.relevantValves input.2).length
    · simp [h16]
    · simp only [h16, if_neg, if_false]
      set g := P16.candidate input (P16.allPairs input.2) (P16.relevantValves input.2)
        (P16.flowMaskOf input.2) fuel with hg
      cases hm : (P16.candidateMasks (P16.relevantValves input.2)).mapM g with
      | none =>
        have hex : ∃ x ∈ P16.candidateMasks (P16.relevantValves input.2), g x = none := by
          by_contra hall
          push_neg at hall
          have : ∀ x ∈ P16.candidateMasks (P16.relevantValves input.2),
              g x = some ((g x).getD (0, 0)) := by
            intro x hx
            cases hgx : g x with
            | none => exact absurd hgx (hall x hx)
            | some v => simp
          rw [optionMapM_of_all g (fun x => (g x).getD (0, 0)) _ this] at hm
          simp at hm
        obtain ⟨x, hx, hgx⟩ := hex
        have hsx : x ∈ s := hp.mem_iff.mpr hx
        rw [optionMapM_none_of_mem g s x hsx hgx]
      | some rs =>
        have hall : ∀ x ∈ P16.candidateMasks (P16.relevantValves input.2), g x ≠ none :=
          optionMapM_all_some g _ rs hm
        have hsome : ∀ x ∈ P16.candidateMasks (P16.relevantValves input.2),
            g x = some ((g x).getD (0, 0)) := by
          intro x hx
          cases hgx : g x with
          | none => exact absurd hgx (hall x hx)
          | some v => simp
        have hrs : rs = (P16.candidateMasks (P16.relevantValves input.2)).map
            (fun x => (g x).getD (0, 0)) := by
          have := optionMapM_of_all g (fun x => (g x).getD (0, 0)) _ hsome
          rw [hm] at this
          exact (Option.some.injEq _ _).mp this.symm ▸ (by
            cases this with
            | refl => rfl)
        have hsomeS : ∀ x ∈ s, g x = some ((g x).getD (0, 0)) := by
          intro x hx
          exact hsome x (hp.mem_iff.mp hx)
        rw [optionMapM_of_all g (fun x => (g x).getD (0, 0)) s hsomeS]
        have hperm : (s.map (fun x => (g x).getD (0, 0))).Perm rs := by
          rw [hrs]
          exact hp.map _
        have hmax : ((s.map (fun x => (g x).getD (0, 0))).map (·.1)).max? =
            (rs.map (·.1)).max? := max?_perm (hperm.map _)
        simp only [hmax]
  refine ⟨?_, ?_, ?_⟩
  · intro bps s₁ s₂ h1 h2
    have e1 : (s₁.map (fun bp => mulW (P19.maxGeodes bp 24) bp.index)).foldl addW 0 =
        (bps.map (fun bp => mulW (P19.maxGeodes bp 24) bp.index)).foldl addW 0 :=
      foldl_addW_perm (h1.map _) 0
    have e2 : (s₂.map (fun bp => mulW (P19.maxGeodes bp 24) bp.index)).foldl addW 0 =
        (bps.map (fun bp => mulW (P19.maxGeodes bp 24) bp.index)).foldl addW 0 :=
      foldl_addW_perm (h2.map _) 0
    exact ⟨e1.trans e2.symm, e1⟩
  · intro bps s₁ s₂ h3 h1 h2
    have e1 : (s₁.map (fun bp => P19.maxGeodes bp 32)).foldl mulW 1 =
        ((bps.take 3).map (fun bp => P19.maxGeodes bp 32)).foldl mulW 1 :=
      foldl_mulW_perm (h1.map _) 1
    have e2 : (s₂.map (fun bp => P19.maxGeodes bp 32)).foldl mulW 1 =
        ((bps.take 3).map (fun bp => P19.maxGeodes bp 32)).foldl mulW 1 :=
      foldl_mulW_perm (h2.map _) 1
    refine ⟨e1.trans e2.symm, ?_⟩
    rw [e1]
    simp [P19.solve2, h3]
  · intro fuel input s₁ s₂ c₀ c₀' h1 h2
    exact ⟨(p16run fuel input s₁ c₀ h1).trans (p16run fuel input s₂ c₀' h2).symm,
      p16run fuel input s₁ c₀ h1⟩

/-- A two-valve instance used to instantiate the parallel-pipeline
theorems. -/
def tinyValves : List P16.Valve :=
  [ { flow := 0, neighbors := [1] }, { flow := 5, neighbors := [0] } ]

/-- Witness for C4 at concrete schedules and counter values. -/
theorem claim_C4_witness :
    (([bpGeode, bpAllMax].map (fun bp => mulW (P19.maxGeodes bp 24) bp.index)).foldl addW 0 =
       ([bpAllMax, bpGeode].map (fun bp => mulW (P19.maxGeodes bp 24) bp.index)).foldl addW 0 ∧
     ([bpGeode, bpAllMax].map (fun bp => mulW (P19.maxGeodes bp 24) bp.index)).foldl addW 0 =
       P19.solve1 [bpAllMax, bpGeode]) ∧
    (P16.solve2Run 100 (0, tinyValves) [0] 7).1 = (P16.solve2Run 100 (0, tinyValves) [0] 0).1 ∧
    (P16.solve2Run 100 (0, tinyValves) [0] 7).1 = P16.solve2 100 (0, tinyValves) :=
  ⟨claim_C4.1 [bpAllMax, bpGeode] [bpGeode, bpAllMax] [bpAllMax, bpGeode]
      (by decide) (by decide),
   claim_C4.2.2 100 (0, tinyValves) [0] [0] 7 0 (by decide) (by decide)⟩

/-- C5 counterexample: the rayon pipeline in `p19::solve2` reduces its
per-candidate results with `.product()`: on three blueprints whose search
values are `0, 2, 0` it returns `0`, which is neither the maximum (`2`) nor
the sum (`2`) of the per-candidate results. -/
theorem claim_C5_counterexample :
    P19.solve2 [bpAllMax, bpGeode, bpAllMax] = some 0 ∧
    ([bpAllMax, bpGeode, bpAllMax].map (fun bp => P19.maxGeodes bp 32)).max? = some 2 ∧
    ([bpAllMax, bpGeode, bpAllMax].map (fun bp => P19.maxGeodes bp 32)).foldl addW 0 = 2 ∧
    (0 : Nat) ≠ 2 := by
  refine ⟨?_, by decide, by decide, by decide⟩
  unfold P19.solve2
  decide

/-- C5 (amended): every data-parallel pipeline blocks for all per-candidate
results and reduces them with a commutative-monoid fold: `p19::solve1` by
sum, `p19::solve2` by product, `p16::solve2` by maximum. -/
theorem claim_C5 :
    (∀ bps : List P19.Blueprint,
        P19.solve1 bps =
          (bps.map (fun bp => mulW (P19.maxGeodes bp 24) bp.index)).foldl addW 0) ∧
    (∀ bps : List P19.Blueprint, 3 ≤ bps.length →
        P19.solve2 bps =
          some (((bps.take 3).map (fun bp => P19.maxGeodes bp 32)).foldl mulW 1)) ∧
    (∀ (fuel : Nat) (input : Nat × List P16.Valve) (results : List (Nat × Nat)),
        ¬ 16 ≤ (P16.relevantValves input.2).length →
        (P16.candidateMasks (P16.relevantValves input.2)).mapM
          (P16.candidate input (P16.allPairs input.2) (P16.relevantValves input.2)
            (P16.flowMaskOf input.2) fuel) = some results →
        P16.solve2 fuel input = ((results.map (·.1)).max?).map Except.ok) := by
  refine ⟨fun bps => rfl, fun bps h => by simp [P19.solve2, h], ?_⟩
  intro fuel input results h16 hm
  unfold P16.solve2
  simp only [h16, if_neg, if_false]
  rw [hm]
  cases hmx : (results.map (fun x => x.1)).max? <;> simp [hmx]

/-- Witness for C5 at concrete inputs. -/
theorem claim_C5_witness :
    P19.solve2 [bpAllMax, bpGeode, bpAllMax] =
      some ((([bpAllMax, bpGeode, bpAllMax].take 3).map
        (fun bp => P19.maxGeodes bp 32)).foldl mulW 1) ∧
    P16.solve2 100 (0, tinyValves) = (([( (120 : Nat), (3 : Nat))].map (·.1)).max?).map Except.ok :=
  ⟨claim_C5.2.1 [bpAllMax, bpGeode, bpAllMax] (by decide),
   claim_C5.2.2 100 (0, tinyValves) [(120, 3)] (by decide) (by decide)⟩

section P20Proofs

/-- `shift_node` relinks the removed node somewhere in the remaining cycle:
the node order stays a rearrangement (the remaining cycle must be non-empty,
i.e. at least two nodes; `ShiftList::new` guarantees this). -/
theorem shiftNode_perm (ord : List Nat) (idx : Nat) (delta : Int)
    (hmem : idx ∈ ord) (hlen : 2 ≤ ord.length) :
    (P20.shiftNode ord idx delta).Perm ord := by
  have herase : (ord.erase idx).length = ord.length - 1 := List.length_erase_of_mem hmem
  have hm : 1 ≤ (ord.erase idx).length := by omega
  unfold P20.shiftNode
  split_ifs with h1 h2
  · have hle : (((ord.indexOf idx + (ord.erase idx).length - 1) % (ord.erase idx).length)
        + delta.toNat) % (ord.erase idx).length + 1 ≤ (ord.erase idx).length := by
      have := Nat.mod_lt (((ord.indexOf idx + (ord.erase idx).length - 1) %
        (ord.erase idx).length) + delta.toNat) (show 0 < (ord.erase idx).length by omega)
      omega
    exact ((List.perm_insertIdx idx (ord.erase idx) hle).trans
      (List.perm_cons_erase hmem).symm)
  · have hle : (ord.indexOf idx % (ord.erase idx).length +
        ((ord.erase idx).length - (-delta).toNat % (ord.erase idx).length)) %
          (ord.erase idx).length ≤ (ord.erase idx).length := by
      have := Nat.mod_lt (ord.indexOf idx % (ord.erase idx).length +
        ((ord.erase idx).length - (-delta).toNat % (ord.erase idx).length))
        (show 0 < (ord.erase idx).length by omega)
      omega
    exact ((List.perm_insertIdx idx (ord.erase idx) hle).trans
      (List.perm_cons_erase hmem).symm)
  · exact List.Perm.refl ord

/-- The inner mixing fold keeps the node order a rearrangement of the
initial cycle. -/
theorem mixFold_perm (seq : List Int) (n : Nat) (hn : 2 ≤ n) :
    ∀ (is : List Nat) (ord : List Nat), (∀ i ∈ is, i < n) →
      ord.Perm (List.range n) →
      (is.foldl (fun ord i => P20.shiftNode ord i (P20.reduceDelta n (seq.getD i 0))) ord).Perm
        (List.range n) := by
  intro is
  induction is with
  | nil => intro ord _ hp; simpa using hp
  | cons i rest ih =>
    intro ord hmem hp
    simp only [List.foldl_cons]
    refine ih _ (fun j hj => hmem j (by simp [hj])) ?_
    have himem : i ∈ ord := hp.mem_iff.mpr (List.mem_range.mpr (hmem i (by simp)))
    have hlen : 2 ≤ ord.length := by
      rw [hp.length_eq, List.length_range]
      exact hn
    exact (shiftNode_perm ord i _ himem hlen).trans hp

/-- Reading every index of a list in order reproduces the list. -/
theorem map_getD_range {α : Type} (l : List α) (d : α) :
    (List.range l.length).map (fun i => l.getD i d) = l := by
  induction l with
  | nil => simp
  | cons x xs ih =>
    rw [List.length_cons, List.range_succ_eq_map]
    simp only [List.map_cons, List.map_map]
    have hfun : ((fun i => (x :: xs).getD i d) ∘ Nat.succ) = (fun i => xs.getD i d) := by
      funext i
      rfl
    rw [hfun]
    simpa using ih

/-- `findIdx?` for the zero element: it exists, is in range, and points at a
zero. -/
theorem findIdx?_zero (seq : List Int) (h0 : (0 : Int) ∈ seq) :
    ∃ i, seq.findIdx? (fun x => x == 0) = some i ∧ i < seq.length ∧
      seq.getD i 0 = 0 := by
  induction seq with
  | nil => simp at h0
  | cons x xs ih =>
    by_cases hx : x = 0
    · exact ⟨0, by simp [List.findIdx?_cons, hx], by simp, by simp [hx]⟩
    · have h0x : (0 : Int) ∈ xs := by
        rcases List.mem_cons.mp h0 with h | h
        · exact absurd h.symm hx
        · exact h
      obtain ⟨i, hfi, hlt, hget⟩ := ih h0x
      refine ⟨i + 1, ?_, by simpa using Nat.succ_lt_succ hlt, by simpa using hget⟩
      have hxf : (x == 0) = false := by simp [hx]
      simp [List.findIdx?_cons, hxf, hfi]

/-- C7: for every list of at least two 64-bit integers containing 0,
`mix_sequence` succeeds and returns a list of the same length that is a
rearrangement (equal multiset) of the input and starts with 0. -/
theorem claim_C7 (seq : List Int) (k : Nat) (h2 : 2 ≤ seq.length)
    (h0 : (0 : Int) ∈ seq) :
    ∃ res, P20.mixSequence seq k = some res ∧ res.length = seq.length ∧
      res.Perm seq ∧ res.head? = some 0 := by
  obtain ⟨z, hz, hzlt, hzget⟩ := findIdx?_zero seq h0
  have houter : ∀ (rounds : List Nat) (ord : List Nat), ord.Perm (List.range seq.length) →
      (rounds.foldl (fun ord _ =>
        (List.range seq.length).foldl
          (fun ord i => P20.shiftNode ord i (P20.reduceDelta seq.length (seq.getD i 0))) ord)
        ord).Perm (List.range seq.length) := by
    intro rounds
    induction rounds with
    | nil => intro ord hp; simpa using hp
    | cons r rest ih =>
      intro ord hp
      simp only [List.foldl_cons]
      exact ih _ (mixFold_perm seq seq.length h2 (List.range seq.length) ord
        (fun i hi => List.mem_range.mp hi) hp)
  have hop : ((List.range k).foldl (fun ord _ =>
      (List.range seq.length).foldl
        (fun ord i => P20.shiftNode ord i (P20.reduceDelta seq.length (seq.getD i 0))) ord)
      (P20.newOrder seq.length)).Perm (List.range seq.length) :=
    houter _ _ (by simp [P20.newOrder])
  set ord := (List.range k).foldl (fun ord _ =>
      (List.range seq.length).foldl
        (fun ord i => P20.shiftNode ord i (P20.reduceDelta seq.length (seq.getD i 0))) ord)
      (P20.newOrder seq.length) with hord
  have hperm : (P20.intoVec seq ord z).Perm seq := by
    unfold P20.intoVec
    have h1 : (ord.rotate (ord.indexOf z)).Perm (List.range seq.length) :=
      (List.rotate_perm ord _).trans hop
    have h2 := h1.map (fun i => seq.getD i 0)
    rwa [map_getD_range seq 0] at h2
  have hzmem : z ∈ ord := hop.mem_iff.mpr (List.mem_range.mpr hzlt)
  have hidx : ord.indexOf z < ord.length := List.indexOf_lt_length.mpr hzmem
  have hhead : (P20.intoVec seq ord z).head? = some 0 := by
    unfold P20.intoVec
    rw [List.head?_map, List.head?_rotate hidx, List.getElem?_indexOf hzmem]
    simpa [List.getD] using hzget
  unfold P20.mixSequence
  rw [hz]
  exact ⟨P20.intoVec seq ord z, rfl, hperm.length_eq, hperm, hhead⟩

end P20Proofs

/-- Witness for C7 at a concrete input. -/
theorem claim_C7_witness :
    ∃ res, P20.mixSequence [3, 0, -1] 1 = some res ∧
      res.length = ([3, 0, -1] : List Int).length ∧
      res.Perm [3, 0, -1] ∧ res.head? = some 0 :=
  claim_C7 [3, 0, -1] 1 (by decide) (by decide)

section P11Proofs

/-- The turn loop never writes the `input` field: the parsed input is only
held by shared borrow. -/
theorem stepTurnLoop_input (idx : Nat) :
    ∀ (fuel : Nat) (sim : P11.Sim), (P11.stepTurnLoop sim idx fuel).input = sim.input := by
  intro fuel
  induction fuel with
  | zero => intro sim; rfl
  | succ fuel ih =>
    intro sim
    unfold P11.stepTurnLoop
    cases sim.items.getD idx [] with
    | nil => rfl
    | cons item rest => exact ih _

/-- One round never writes the `input` field. -/
theorem stepRound_input (fuel : Nat) (sim : P11.Sim) :
    (P11.stepRound fuel sim).input = sim.input := by
  unfold P11.stepRound
  generalize List.range sim.items.length = l
  induction l generalizing sim with
  | nil => rfl
  | cons m rest ih =>
    simp only [List.foldl_cons]
    exact (ih _).trans (stepTurnLoop_input m fuel sim)

/-- Iterated rounds never write the `input` field. -/
theorem rounds_input (fuel : Nat) (l : List Nat) :
    ∀ sim : P11.Sim, (l.foldl (fun s _ => P11.stepRound fuel s) sim).input = sim.input := by
  induction l with
  | nil => intro sim; rfl
  | cons r rest ih =>
    intro sim
    simp only [List.foldl_cons]
    exact (ih _).trans (stepRound_input fuel sim)

end P11Proofs

/-- C6: the parsed input is immutable after load: the p11 simulation never
writes the shared input it borrows (neither a turn, a round, nor the
20-round solve-1 run), and p20's solve2 scales only its owned copy, so
running solve1 before solve2 yields the same part-2 answer as running solve2
alone.  (Formalized for the two cited puzzles, p11 and p20.) -/
theorem claim_C6 :
    (∀ (sim : P11.Sim) (idx fuel : Nat),
        (P11.stepTurnLoop sim idx fuel).input = sim.input ∧
        (P11.stepRound fuel sim).input = sim.input) ∧
    (∀ (fuel : Nat) (input : List P11.Monkey),
        (P11.solve1Threaded fuel input).2 = input ∧
        P11.solve2 fuel (P11.solve1Threaded fuel input).2 = P11.solve2 fuel input) ∧
    (∀ input : List Int,
        (P20.solve2Threaded input).2 = input ∧
        P20.solve2 (P20.solve2Threaded input).2 = P20.solve2 input) := by
  refine ⟨fun sim idx fuel => ⟨stepTurnLoop_input idx fuel sim, stepRound_input fuel sim⟩,
    fun fuel input => ?_, fun input => ⟨rfl, rfl⟩⟩
  have h2 : (P11.solve1Threaded fuel input).2 = input := by
    unfold P11.solve1Threaded
    simpa using rounds_input fuel (List.range 20) (P11.Sim.new input true)
  exact ⟨h2, by rw [h2]⟩

namespace P11

/-- The coupling between a worry value of the mod-`k` simulation and the
corresponding exact reference value: congruent modulo `k` and small enough
that the next operation cannot overflow `u64`. -/
def ItemRel (k B c r : Nat) : Prop := c % k = r % k ∧ c ≤ B

/-- The coupling between the mod-`k` simulation state and the exact
reference state: same borrowed input, decay disabled, item lists of the same
shape with coupled values, and identical inspection counts. -/
def SimRel (input : List Monkey) (k B : Nat) (code ref : Sim) : Prop :=
  code.input = input ∧ ref.input = input ∧ code.decay = false ∧ code.k = k ∧
  code.items.length = input.length ∧ code.inspected = ref.inspected ∧
  List.Forall₂ (List.Forall₂ (ItemRel k B)) code.items ref.items

end P11

section P11Rel

/-- `Forall₂` transfers along `getD` at in-range indices. -/
theorem forall2_getD {α β : Type} {R : α → β → Prop} :
    ∀ {l : List α} {l' : List β}, List.Forall₂ R l l' →
      ∀ (i : Nat) (d : α) (d' : β), i < l.length → R (l.getD i d) (l'.getD i d') := by
  intro l l' h
  induction h with
  | nil => intro i d d' hi; simp at hi
  | cons hab hrest ih =>
    intro i d d' hi
    cases i with
    | zero => simpa using hab
    | succ j => simpa using ih j d d' (by simpa using hi)

/-- `Forall₂` is preserved by `set` with related values. -/
theorem forall2_set {α β : Type} {R : α → β → Prop} :
    ∀ {l : List α} {l' : List β}, List.Forall₂ R l l' →
      ∀ (i : Nat) (a : α) (b : β), R a b →
        List.Forall₂ R (l.set i a) (l'.set i b) := by
  intro l l' h
  induction h with
  | nil => intro i a b _; simp [List.set]
  | cons hab hrest ih =>
    intro i a b hR
    cases i with
    | zero => exact List.Forall₂.cons hR hrest
    | succ j => exact List.Forall₂.cons hab (ih j a b hR)

/-- `Forall₂` is preserved by appending related values. -/
theorem forall2_append1 {α β : Type} {R : α → β → Prop}
    {l : List α} {l' : List β} (h : List.Forall₂ R l l')
    {a : α} {b : β} (hab : R a b) : List.Forall₂ R (l ++ [a]) (l' ++ [b]) := by
  induction h with
  | nil => simpa using List.Forall₂.cons hab List.Forall₂.nil
  | cons hxy hrest ih => exact List.Forall₂.cons hxy ih

/-- The `u64` rendering of an operation is its exact value reduced mod
`2^64`. -/
theorem applyW_eq (op : P11.Op) (w : Nat) :
    op.applyW w = op.applyExact w % U64MOD := by
  cases op <;> rfl

/-- Operand evaluation respects congruence mod `k`. -/
theorem evaluate_congr (o : P11.Operand) {k c r : Nat} (h : c % k = r % k) :
    P11.evaluate o c % k = P11.evaluate o r % k := by
  cases o with
  | Const n => rfl
  | Old => exact h

/-- Monkey operations (sums and products of `old` and constants) respect
congruence mod `k`. -/
theorem applyExact_congr (op : P11.Op) {k c r : Nat} (h : c % k = r % k) :
    op.applyExact c % k = op.applyExact r % k := by
  cases op with
  | Mul a b =>
    exact Nat.ModEq.mul (evaluate_congr a h) (evaluate_congr b h)
  | Add a b =>
    exact Nat.ModEq.add (evaluate_congr a h) (evaluate_congr b h)

end P11Rel

/-- One turn of the mod-`k` simulation stays coupled to one turn of the
exact reference simulation: both inspect the same items, take the same
branches, and send congruent worry values to the same targets. -/
theorem turn_rel (input : List P11.Monkey) (k B : Nat) (hk : 0 < k)
    (hkB : k - 1 ≤ B)
    (hdvd : ∀ m ∈ input, m.divisor ∣ k)
    (hop : ∀ m ∈ input, ∀ w ≤ B, m.operation.applyExact w < U64MOD) (idx : Nat) :
    ∀ (fuel : Nat) (code ref : P11.Sim), P11.SimRel input k B code ref →
      P11.SimRel input k B (P11.stepTurnLoop code idx fuel)
        (P11.refStepTurnLoop ref idx fuel) := by
  intro fuel
  induction fuel with
  | zero => intro code ref h; exact h
  | succ fuel ih =>
    intro code ref hrel
    obtain ⟨hci, hri, hcd, hck, hclen, hcins, hitems⟩ := hrel
    unfold P11.stepTurnLoop P11.refStepTurnLoop
    by_cases hidx : idx < code.items.length
    case neg =>
      have h1 : code.items.getD idx [] = [] :=
        List.getD_eq_default _ _ (le_of_not_lt hidx)
      have h2 : ref.items.getD idx [] = [] :=
        List.getD_eq_default _ _ (by rw [← hitems.length_eq]; exact le_of_not_lt hidx)
      rw [h1, h2]
      exact ⟨hci, hri, hcd, hck, hclen, hcins, hitems⟩
    case pos =>
      have hrel2 := forall2_getD hitems idx [] [] hidx
      cases hcl : code.items.getD idx [] with
      | nil =>
        rw [hcl] at hrel2
        have hrl : ref.items.getD idx [] = [] := List.forall₂_nil_left_iff.mp hrel2
        rw [hrl]
        exact ⟨hci, hri, hcd, hck, hclen, hcins, hitems⟩
      | cons c crest =>
        rw [hcl] at hrel2
        cases hrl : ref.items.getD idx [] with
        | nil => rw [hrl] at hrel2; exact absurd hrel2 (by simp)
        | cons r rrest =>
          rw [hrl] at hrel2
          have hcr : P11.ItemRel k B c r := (List.forall₂_cons.mp hrel2).1
          have hrest : List.Forall₂ (P11.ItemRel k B) crest rrest :=
            (List.forall₂_cons.mp hrel2).2
          have hlen_in : idx < input.length := by rw [← hclen]; exact hidx
          have hmonmem :
              input.getD idx ⟨[], P11.Op.Add P11.Operand.Old P11.Operand.Old, 1, (0, 0)⟩
                ∈ input := by
            rw [List.getD_eq_getElem _ _ hlen_in]
            exact List.getElem_mem _
          set monkey :=
            input.getD idx ⟨[], P11.Op.Add P11.Operand.Old P11.Operand.Old, 1, (0, 0)⟩
            with hmon
          have hovC : monkey.operation.applyExact c < U64MOD := hop monkey hmonmem c hcr.2
          have hcw : monkey.operation.applyW c % k = monkey.operation.applyExact c % k := by
            rw [applyW_eq, Nat.mod_eq_of_lt hovC]
          have hcong : monkey.operation.applyExact c % k =
              monkey.operation.applyExact r % k := applyExact_congr _ hcr.1
          have hdvdm : monkey.divisor ∣ k := hdvd monkey hmonmem
          have htest : (monkey.operation.applyW c % k) % monkey.divisor =
              monkey.operation.applyExact r % monkey.divisor := by
            rw [hcw, Nat.mod_mod_of_dvd _ hdvdm]
            exact Nat.ModEq.of_dvd hdvdm hcong
          have hitemrel : P11.ItemRel k B (monkey.operation.applyW c % k)
              (monkey.operation.applyExact r) := by
            constructor
            · rw [Nat.mod_mod_of_dvd _ dvd_rfl, hcw, hcong]
            · have := Nat.mod_lt (monkey.operation.applyW c) hk
              omega
          apply ih
          refine ⟨hci, hri, hcd, hck, ?_, ?_, ?_⟩
          · simpa using hclen
          · dsimp only
            rw [hcins]
          · dsimp only
            rw [hci, hri, hck, hcd]
            simp only [Bool.false_eq_true, if_false]
            rw [← hmon, htest]
            refine forall2_set (forall2_set hitems idx crest rrest hrest) _ _ _ ?_
            have hset : List.Forall₂ (List.Forall₂ (P11.ItemRel k B))
                (code.items.set idx crest) (ref.items.set idx rrest) :=
              forall2_set hitems idx crest rrest hrest
            set tgt := if monkey.operation.applyExact r % monkey.divisor = 0 then
              monkey.branches.2 else monkey.branches.1 with htgtd
            refine forall2_append1 ?_ hitemrel
            by_cases htl : tgt < (code.items.set idx crest).length
            · exact forall2_getD hset tgt [] [] htl
            · rw [List.getD_eq_default _ _ (le_of_not_lt htl),
                List.getD_eq_default _ _ (by rw [← hset.length_eq]; exact le_of_not_lt htl)]
              exact List.Forall₂.nil

/-- One round of the mod-`k` simulation stays coupled to one round of the
exact reference simulation. -/
theorem round_rel (input : List P11.Monkey) (k B : Nat) (hk : 0 < k)
    (hkB : k - 1 ≤ B)
    (hdvd : ∀ m ∈ input, m.divisor ∣ k)
    (hop : ∀ m ∈ input, ∀ w ≤ B, m.operation.applyExact w < U64MOD) (fuel : Nat) :
    ∀ (code ref : P11.Sim), P11.SimRel input k B code ref →
      P11.SimRel input k B (P11.stepRound fuel code) (P11.refStepRound fuel ref) := by
  intro code ref hrel
  unfold P11.stepRound P11.refStepRound
  have hlen : ref.items.length = code.items.length := hrel.2.2.2.2.2.2.length_eq.symm
  rw [hlen]
  clear hlen
  generalize List.range code.items.length = l
  induction l generalizing code ref with
  | nil => exact hrel
  | cons m rest ih =>
    simp only [List.foldl_cons]
    exact ih _ _ (turn_rel input k B hk hkB hdvd hop m fuel code ref hrel)

/-- The initial states of the two simulations are coupled. -/
theorem simrel_init (input : List P11.Monkey) (B : Nat)
    (hinit : ∀ m ∈ input, ∀ it ∈ m.items, it ≤ B) :
    P11.SimRel input (P11.lcmR (input.map (·.divisor))) B
      (P11.Sim.new input false) (P11.Sim.new input false) := by
  refine ⟨rfl, rfl, rfl, rfl, by simp [P11.Sim.new], rfl, ?_⟩
  rw [List.forall₂_same]
  intro x hx
  rw [List.forall₂_same]
  intro v hv
  obtain ⟨m, hm, hxm⟩ := List.mem_map.mp hx
  exact ⟨rfl, hinit m hm v (by rw [← hxm] at hv; exact hv)⟩

/-- C9 (amended): with decay disabled, provided the computed `k` is positive
and a common multiple of every divisor and no worry operation can overflow
`u64` (bound `B` dominates `k - 1` and all start items, and operation
results on arguments up to `B` stay below `2^64`), the mod-`k` simulation
produces after every number of rounds the same per-monkey inspection counts
and the same item routing (congruent worry values in the same positions) as
the exact-integer reference simulation. -/
theorem claim_C9 (input : List P11.Monkey) (B rounds fuel : Nat)
    (hk : 0 < P11.lcmR (input.map (·.divisor)))
    (hkB : P11.lcmR (input.map (·.divisor)) - 1 ≤ B)
    (hdvd : ∀ m ∈ input, m.divisor ∣ P11.lcmR (input.map (·.divisor)))
    (hop : ∀ m ∈ input, ∀ w ≤ B, m.operation.applyExact w < U64MOD)
    (hinit : ∀ m ∈ input, ∀ it ∈ m.items, it ≤ B) :
    ((List.range rounds).foldl (fun s _ => P11.stepRound fuel s)
        (P11.Sim.new input false)).inspected =
      ((List.range rounds).foldl (fun s _ => P11.refStepRound fuel s)
        (P11.Sim.new input false)).inspected ∧
    List.Forall₂ (List.Forall₂ (fun c r =>
        c % P11.lcmR (input.map (·.divisor)) = r % P11.lcmR (input.map (·.divisor))))
      ((List.range rounds).foldl (fun s _ => P11.stepRound fuel s)
        (P11.Sim.new input false)).items
      ((List.range rounds).foldl (fun s _ => P11.refStepRound fuel s)
        (P11.Sim.new input false)).items := by
  have hrel : ∀ l : List Nat, P11.SimRel input (P11.lcmR (input.map (·.divisor))) B
      (l.foldl (fun s _ => P11.stepRound fuel s) (P11.Sim.new input false))
      (l.foldl (fun s _ => P11.refStepRound fuel s) (P11.Sim.new input false)) := by
    intro l
    induction l using List.reverseRecOn with
    | nil => exact simrel_init input B hinit
    | append_singleton rest r ih =>
      simp only [List.foldl_append, List.foldl_cons, List.foldl_nil]
      exact round_rel input _ B hk hkB hdvd hop fuel _ _ ih
  refine ⟨(hrel (List.range rounds)).2.2.2.2.2.1, ?_⟩
  exact (hrel (List.range rounds)).2.2.2.2.2.2.imp
    (fun a b h => h.imp (fun c r hir => hir.1))

/-- The three-monkey input on which `u64` overflow breaks the mod-`k`
simulation: monkey 0 squares the worry value `2^32`. -/
def cexMonkeys : List P11.Monkey :=
  [ { items := [4294967296], operation := P11.Op.Mul P11.Operand.Old P11.Operand.Old,
      divisor := 3, branches := (2, 1) },
    { items := [], operation := P11.Op.Add P11.Operand.Old (P11.Operand.Const 0),
      divisor := 1, branches := (2, 2) },
    { items := [], operation := P11.Op.Add P11.Operand.Old (P11.Operand.Const 0),
      divisor := 1, branches := (1, 1) } ]

/-- C9 counterexample: squaring the worry value `2^32` wraps to `0` in the
`u64` mod-`k` simulation (divisible by 3) while the exact value `2^64` is
not divisible by 3, so after one round the two simulations have different
per-monkey inspection counts. -/
theorem claim_C9_counterexample :
    (P11.stepRound 4 (P11.Sim.new cexMonkeys false)).inspected = [1, 1, 1] ∧
    (P11.refStepRound 4 (P11.Sim.new cexMonkeys false)).inspected = [1, 0, 1] ∧
    ([1, 1, 1] : List Nat) ≠ [1, 0, 1] := by
  exact ⟨by decide, by decide, by decide⟩

/-- The two-monkey input used to instantiate the amended C9. -/
def okMonkeys : List P11.Monkey :=
  [ { items := [1], operation := P11.Op.Add P11.Operand.Old (P11.Operand.Const 1),
      divisor := 3, branches := (1, 1) },
    { items := [], operation := P11.Op.Mul P11.Operand.Old (P11.Operand.Const 1),
      divisor := 5, branches := (0, 0) } ]

/-- Witness for C9 at a concrete input. -/
theorem claim_C9_witness :
    ((List.range 2).foldl (fun s _ => P11.stepRound 4 s)
        (P11.Sim.new okMonkeys false)).inspected =
      ((List.range 2).foldl (fun s _ => P11.refStepRound 4 s)
        (P11.Sim.new okMonkeys false)).inspected ∧
    List.Forall₂ (List.Forall₂ (fun c r =>
        c % P11.lcmR (okMonkeys.map (·.divisor)) = r % P11.lcmR (okMonkeys.map (·.divisor))))
      ((List.range 2).foldl (fun s _ => P11.stepRound 4 s)
        (P11.Sim.new okMonkeys false)).items
      ((List.range 2).foldl (fun s _ => P11.refStepRound 4 s)
        (P11.Sim.new okMonkeys false)).items :=
  claim_C9 okMonkeys 16 2 4 (by decide) (by decide) (by decide) (by decide) (by decide)

namespace P22

/-- `p22::Dir`. -/
inductive Dir where
  | Left
  | Right
  | Up
  | Down
deriving DecidableEq

/-- `p22::Dir::flip`. -/
def Dir.flip : Dir → Dir
  | Dir.Up => Dir.Down
  | Dir.Down => Dir.Up
  | Dir.Left => Dir.Right
  | Dir.Right => Dir.Left

/-- `p22::Face`: vertex indices and the grid coordinates of the face's
corner cells (`coords[i]` borders vertex `verts[i]`), plus the cached
bounds. -/
structure Face where
  verts : List Nat
  coords : List (Nat × Nat)
  xBounds : Nat × Nat
  yBounds : Nat × Nat
deriving DecidableEq

/-- `p22::Face::contains_pos`. -/
def Face.containsPos (f : Face) (pos : Nat × Nat) : Bool :=
  f.xBounds.1 ≤ pos.1 ∧ pos.1 ≤ f.xBounds.2 ∧
    f.yBounds.1 ≤ pos.2 ∧ pos.2 ≤ f.yBounds.2

/-- `p22::CubeMapping`. -/
structure CubeMapping where
  faces : List Face
deriving DecidableEq

/-- `p22::CubeMapping::opposite_face`; the catch-all arm panics in Rust
(`none` here). -/
def oppositeFace (edge : Nat × Nat) (face : Nat) : Option Nat :=
  let e0 := min edge.1 edge.2
  let e1 := max edge.1 edge.2
  match face, e0, e1 with
  | 0, 0, 1 => some 2
  | 0, 0, 2 => some 1
  | 0, 1, 3 => some 3
  | 0, 2, 3 => some 4
  | 1, 0, 2 => some 0
  | 1, 0, 4 => some 2
  | 1, 2, 6 => some 4
  | 1, 4, 6 => some 5
  | 2, 0, 1 => some 0
  | 2, 1, 5 => some 3
  | 2, 4, 5 => some 5
  | 2, 0, 4 => some 1
  | 3, 1, 3 => some 0
  | 3, 1, 5 => some 2
  | 3, 5, 7 => some 5
  | 3, 3, 7 => some 4
  | 4, 2, 3 => some 0
  | 4, 3, 7 => some 3
  | 4, 2, 6 => some 1
  | 4, 6, 7 => some 5
  | 5, 4, 5 => some 2
  | 5, 5, 7 => some 3
  | 5, 4, 6 => some 1
  | 5, 6, 7 => some 4
  | _, _, _ => none

/-- The default face used to model the (panicking) out-of-range accesses. -/
def dummyFace : Face := ⟨[], [], (0, 0), (0, 0)⟩

/-- `p22::CubeMapping::map`: map a position leaving the set region through a
face edge onto the connecting face.  All `unwrap`/`expect`/`unreachable`
panics are modelled as `none`. -/
def CubeMapping.map (m : CubeMapping) (pos : Nat × Nat) (dir : Dir) :
    Option ((Nat × Nat) × Dir) := do
  let face ← m.faces.findIdx? (fun f => f.containsPos pos)
  let f := m.faces.getD face dummyFace
  let isHoriz : Bool := dir = Dir.Up ∨ dir = Dir.Down
  let idxs := if isHoriz then
      (f.coords.enum.filter (fun t => t.2.2 = pos.2)).map (·.1)
    else
      (f.coords.enum.filter (fun t => t.2.1 = pos.1)).map (·.1)
  let i0 ← idxs[0]?
  let i1 ← idxs[1]?
  let v0 := f.verts.getD i0 0
  let v1 := f.verts.getD i1 0
  let c0 := f.coords.getD i0 (0, 0)
  let oppFace ← oppositeFace (v0, v1) face
  let g := m.faces.getD oppFace dummyFace
  let j0 ← g.verts.findIdx? (fun v => v = v0)
  let j1 ← g.verts.findIdx? (fun v => v = v1)
  let cj0 := g.coords.getD j0 (0, 0)
  let cj1 := g.coords.getD j1 (0, 0)
  let j2 ← (List.range 4).find? (fun x => x ≠ j0 && x ≠ j1)
  let cj2 := g.coords.getD j2 (0, 0)
  let edgeHoriz : Bool := cj0.2 = cj1.2
  let dir2 ← if edgeHoriz then
      if cj0.2 < cj2.2 then some Dir.Down
      else if cj2.2 < cj0.2 then some Dir.Up
      else none
    else
      if cj0.1 < cj2.1 then some Dir.Right
      else if cj2.1 < cj0.1 then some Dir.Left
      else none
  let t : Nat := if isHoriz then ((pos.1 : Int) - (c0.1 : Int)).natAbs
    else ((pos.2 : Int) - (c0.2 : Int)).natAbs
  let dx : Int := (cj1.1 : Int) - (cj0.1 : Int)
  let dy : Int := (cj1.2 : Int) - (cj0.2 : Int)
  let dest : Nat × Nat :=
    (((((t : Int) * dx.sign) + (cj0.1 : Int)).emod (2 ^ 64)).toNat,
     ((((t : Int) * dy.sign) + (cj0.2 : Int)).emod (2 ^ 64)).toNat)
  return (dest, dir2)

end P22

namespace P22

/-- Membership of vertex `v` in logical cube face `fi`, per the vertex
numbering in the `CubeMapping` documentation (3-bit coordinates). -/
def vsMem (fi v : Nat) : Bool :=
  v < 8 &&
    (match fi with
     | 0 => v / 4 % 2 = 0
     | 5 => v / 4 % 2 = 1
     | 1 => v % 2 = 0
     | 3 => v % 2 = 1
     | 2 => v / 2 % 2 = 0
     | 4 => v / 2 % 2 = 1
     | _ => false)

/-- Two cube vertices are joined by a cube edge (Hamming distance one). -/
def cubeAdj (a b : Nat) : Bool :=
  a ^^^ b = 1 || a ^^^ b = 2 || a ^^^ b = 4

/-- The invariants `CubeMapping::new` establishes for the face stored at
logical index `fi` of a valid cube net with side length `N`: four corner
vertices of the logical face paired with the four grid corners of an
axis-aligned `N`-by-`N` square (cube-adjacent vertices on side-adjacent
corners), with in-range `usize` coordinates. -/
def FaceOk (fi : Nat) (f : Face) (N : Nat) : Prop :=
  f.verts.length = 4 ∧ f.coords.length = 4 ∧
  f.xBounds.2 = f.xBounds.1 + (N - 1) ∧ f.yBounds.2 = f.yBounds.1 + (N - 1) ∧
  f.xBounds.2 < U64MOD ∧ f.yBounds.2 < U64MOD ∧
  (∀ i, i < 4 → vsMem fi (f.verts.getD i 0) = true) ∧
  (∀ i j, i < 4 → j < 4 → i ≠ j → f.verts.getD i 0 ≠ f.verts.getD j 0) ∧
  (∀ i, i < 4 →
    (f.coords.getD i (0, 0)).1 = f.xBounds.1 ∨ (f.coords.getD i (0, 0)).1 = f.xBounds.2) ∧
  (∀ i, i < 4 →
    (f.coords.getD i (0, 0)).2 = f.yBounds.1 ∨ (f.coords.getD i (0, 0)).2 = f.yBounds.2) ∧
  (∀ i j, i < 4 → j < 4 → i ≠ j → f.coords.getD i (0, 0) ≠ f.coords.getD j (0, 0)) ∧
  (∀ i j, i < 4 → j < 4 → cubeAdj (f.verts.getD i 0) (f.verts.getD j 0) = true →
    (f.coords.getD i (0, 0)).1 = (f.coords.getD j (0, 0)).1 ∨
      (f.coords.getD i (0, 0)).2 = (f.coords.getD j (0, 0)).2)

/-- Two faces occupy disjoint rectangles of the input grid. -/
def boxDisjoint (f g : Face) : Prop :=
  f.xBounds.2 < g.xBounds.1 ∨ g.xBounds.2 < f.xBounds.1 ∨
    f.yBounds.2 < g.yBounds.1 ∨ g.yBounds.2 < f.yBounds.1

/-- A cube mapping built from a valid cube net: six faces in logical order,
each satisfying `FaceOk`, on pairwise disjoint grid rectangles. -/
def WellFormed (m : CubeMapping) (N : Nat) : Prop :=
  2 ≤ N ∧ m.faces.length = 6 ∧
  (∀ fi, fi < 6 → FaceOk fi (m.faces.getD fi dummyFace) N) ∧
  (∀ fi fj, fi < 6 → fj < 6 → fi ≠ fj →
    boxDisjoint (m.faces.getD fi dummyFace) (m.faces.getD fj dummyFace))

/-- The forward step from `pos` in direction `dir` leaves face `f`: `pos`
lies on the face boundary facing `dir`. -/
def exitsFace (f : Face) (pos : Nat × Nat) (dir : Dir) : Prop :=
  match dir with
  | Dir.Up => pos.2 = f.yBounds.1
  | Dir.Down => pos.2 = f.yBounds.2
  | Dir.Left => pos.1 = f.xBounds.1
  | Dir.Right => pos.1 = f.xBounds.2

end P22

section P22Proofs

/-- The `opposite_face` table is total on genuine cube edges, involutive,
order-insensitive, and sends an edge to the other face containing both
endpoints. -/
theorem oppFace_table : ∀ fi < 6, ∀ a < 8, ∀ b < 8,
    P22.vsMem fi a = true → P22.vsMem fi b = true → P22.cubeAdj a b = true →
    ∃ fo < 6, P22.oppositeFace (a, b) fi = some fo ∧ fo ≠ fi ∧
      P22.vsMem fo a = true ∧ P22.vsMem fo b = true ∧
      P22.oppositeFace (a, b) fo = some fi ∧ P22.oppositeFace (b, a) fo = some fi := by
  decide

/-- Inside one logical face, a vertex not cube-adjacent to another has every
third face vertex adjacent to both (the four face vertices form a
4-cycle). -/
theorem face_cycle : ∀ fi < 6, ∀ a < 8, ∀ b < 8, ∀ c < 8,
    P22.vsMem fi a = true → P22.vsMem fi b = true → P22.vsMem fi c = true →
    a ≠ b → a ≠ c → b ≠ c → P22.cubeAdj a b = false →
    P22.cubeAdj c a = true ∧ P22.cubeAdj c b = true := by
  decide

/-- `findIdx?` returns an in-range index whose element satisfies the
predicate. -/
theorem findIdx?_some_facts {α : Type} (p : α → Bool) (d : α) :
    ∀ (l : List α) (i : Nat), l.findIdx? p = some i →
      i < l.length ∧ p (l.getD i d) = true := by
  intro l
  induction l with
  | nil => intro i h; simp at h
  | cons x xs ih =>
    intro i h
    rw [List.findIdx?_cons] at h
    by_cases hx : p x
    · simp [hx] at h
      subst h
      simpa using hx
    · simp [hx] at h
      obtain ⟨j, hj, hji⟩ := h
      obtain ⟨h1, h2⟩ := ih j hj
      subst hji
      constructor
      · simpa using Nat.succ_lt_succ h1
      · simpa using h2

/-- `findIdx?` finds the first satisfying index. -/
theorem findIdx?_first {α : Type} (p : α → Bool) (d : α) :
    ∀ (l : List α) (i : Nat), i < l.length → p (l.getD i d) = true →
      (∀ j, j < i → p (l.getD j d) = false) → l.findIdx? p = some i := by
  intro l
  induction l with
  | nil => intro i hi; simp at hi
  | cons x xs ih =>
    intro i hi hp hprev
    rw [List.findIdx?_cons]
    cases i with
    | zero =>
      simp only [List.getD_cons_zero] at hp
      simp [hp]
    | succ j =>
      have hx : p x = false := by simpa using hprev 0 (by omega)
      have hrec := ih j (by simpa using hi) (by simpa using hp)
        (fun j2 hj2 => by simpa using hprev (j2 + 1) (by omega))
      simp [hx, hrec]

end P22Proofs
